import Mathlib

/-!
Verification development for the slang tree-walking interpreter
(`interpreter/src`): a shallow embedding of its value model, heap
strategies (naive, reference-counted, tracing mark-and-sweep),
environment chain, call stack and evaluator, together with theorems
about the embedded code.

Modelling conventions:
* Rust `Rc<RefCell<HeapObject>>` pointers are arena handles: `objs` is
  the arena of every object cell ever created (cells stay readable after
  a strategy drops them from its `heap` vector, exactly as the surviving
  `Rc` clones keep the Rust cell alive), and `live` mirrors the
  strategy's `heap: Vec<Pointer>` in insertion order.
* Rust `Rc<RefCell<Environment>>` values are likewise handles into an
  environment arena; a parent handle is always smaller than the child's.
* `HashMap` fields and scopes are association lists; iteration order is
  the list order (Rust's `HashMap` order is unspecified).
* Recursion that is not structural in Rust (graph traversals, parent
  chains, the evaluator itself) takes an explicit fuel argument; fuel
  exhaustion is reported (`none` / `Res.fuelOut`), never silently
  converted into an answer.
* `f64` values use Lean's `Float`; `i32` uses `Int` (no claim exercises
  integer wrap-around).
-/

set_option linter.unusedVariables false

namespace Slang

/-! ## Value model (`value.rs`) -/

inductive NativeFunction where
  | Print
  | Format
deriving Repr

inductive BinaryOperator where
  | Add
  | Subtract
  | Multiply
  | Divide
  | Exponent
  | EqualTo
  | NotEqualTo
  | GreaterThan
  | GreaterThanOrEqualTo
  | LessThan
  | LessThanOrEqualTo
  | AND
  | OR
  | BitwiseAND
  | BitwiseOR
deriving Repr

inductive UnaryOperator where
  | Minus
  | NOT
deriving Repr

mutual

inductive Value where
  | string : String → Value
  | float : Float → Value
  | integer : Int → Value
  | boolean : Bool → Value
  | function : Function → Value
  | objectReference : Nat → Value
  | object : List (String × Value) → Value

inductive Function where
  | userDefined : List String → Statement → Function
  | native : NativeFunction → Function

inductive Statement where
  | variableDeclaration : String → Option Expression → Statement
  | ifStatement : Expression → Statement → Option Statement → Statement
  | functionDefinition : String → List String → Statement → Statement
  | returnStatement : Option Expression → Statement
  | whileLoop : Expression → Statement → Statement
  | block : List Statement → Statement
  | expression : Expression → Statement

inductive Expression where
  | ternary : Expression → Expression → Expression → Expression
  | binary : Expression → BinaryOperator → Expression → Expression
  | unary : UnaryOperator → Expression → Expression
  | call : Expression → List Expression → Expression
  | assignment : String → Expression → Expression
  | grouping : Expression → Expression
  | literal : Value → Expression
  | var : String → Expression
  | getField : Expression → String → Expression
  | setField : Expression → String → Expression → Expression
  | object : List (String × Expression) → Expression

end

/-- The `Type` enum of `value.rs` (named `SlangType` because `Type` is
reserved in Lean). -/
inductive SlangType where
  | String
  | Float
  | Integer
  | Boolean
  | Function
  | Object
deriving Repr, DecidableEq

/-- `Value::slang_type`. -/
def Value.slangType : Value → SlangType
  | .string _ => .String
  | .float _ => .Float
  | .integer _ => .Integer
  | .boolean _ => .Boolean
  | .function _ => .Function
  | .object _ => .Object
  | .objectReference _ => .Object

/-- The `Display` impl for `Value` (an object prints only its field
names, so this is not recursive). -/
def Value.display : Value → String
  | .string value => value
  | .float value => toString value
  | .integer value => toString value
  | .boolean value => toString value
  | .function (Function.native _) => "<native function>"
  | .function (Function.userDefined parameters _) =>
      "<function with " ++ toString parameters.length ++ " named parameters>"
  | .object fields =>
      "\x7b " ++ String.intercalate ", " (fields.map Prod.fst) ++ " \x7d"
  | .objectReference _ => "<object reference>"

/-! ## Errors (`environment.rs`, `expression.rs`) -/

inductive EnvironmentError where
  | UndefinedAssignmentTarget : String → EnvironmentError
  | UninitialisedTarget : String → EnvironmentError
  | UndefinedTarget : String → EnvironmentError
deriving Repr, DecidableEq

inductive EvaluationError where
  | NonBooleanTernaryCondition : SlangType → EvaluationError
  | InvalidBinaryTypes : SlangType → BinaryOperator → Option SlangType → EvaluationError
  | InvalidUnaryType : UnaryOperator → SlangType → EvaluationError
  | DivisionByZero : EvaluationError
  | UndefinedIdentifier : String → EvaluationError
  | UninitialisedTarget : String → EvaluationError
  | NonBooleanControlFlowCondition : SlangType → String → EvaluationError
  | AttemptedCallOfNonFunction : SlangType → EvaluationError
  | IncorrectArgumentCount : Nat → Nat → EvaluationError
  | AttemptToUseNothing : EvaluationError
  | AttemptToAccessNonObject : SlangType → EvaluationError
  | UndefinedField : String → EvaluationError

/-- The `From<EnvironmentError> for EvaluationError` impl. -/
def EnvironmentError.toEvaluationError : EnvironmentError → EvaluationError
  | .UndefinedAssignmentTarget identifier => .UndefinedIdentifier identifier
  | .UndefinedTarget identifier => .UndefinedIdentifier identifier
  | .UninitialisedTarget identifier => .UninitialisedTarget identifier

/-- `ControlFlow` of `statement.rs`. -/
inductive ControlFlow where
  | Continue : ControlFlow
  | Break : Option Value → ControlFlow

/-! ## Heap (`heap/mod.rs` and the three strategies) -/

/-- `HeapObject` of `heap/mod.rs`. -/
structure HeapObject where
  data : List (String × Value)
  marked : Bool
  reference_count : Nat

/-- The shared heap representation: `objs` is the arena of all object
cells ever created (a handle is an arena index standing for the Rust
`Rc<RefCell<HeapObject>>`); `live` mirrors the strategy struct's
`heap: Vec<Pointer>`. -/
structure HeapState where
  objs : List HeapObject
  live : List Nat

def HeapState.getObj (hs : HeapState) (p : Nat) : HeapObject :=
  hs.objs.getD p ⟨[], false, 0⟩

def HeapState.setObj (hs : HeapState) (p : Nat) (o : HeapObject) : HeapState :=
  ⟨hs.objs.set p o, hs.live⟩

def HeapState.setMarked (hs : HeapState) (p : Nat) (b : Bool) : HeapState :=
  hs.setObj p ⟨(hs.getObj p).data, b, (hs.getObj p).reference_count⟩

def HeapState.setCount (hs : HeapState) (p : Nat) (n : Nat) : HeapState :=
  hs.setObj p ⟨(hs.getObj p).data, (hs.getObj p).marked, n⟩

/-- `Pointer::new(...)` followed by `self.heap.push(Rc::clone(&pointer))`:
a fresh cell is appended to the arena and its handle to the strategy's
vector. -/
def HeapState.push (hs : HeapState) (o : HeapObject) : Nat × HeapState :=
  (hs.objs.length, ⟨hs.objs ++ [o], hs.live ++ [hs.objs.length]⟩)

/-- `objects_count` (the length of the strategy's `heap` vector). -/
def HeapState.objects_count (hs : HeapState) : Nat :=
  hs.live.length

/-- Assoc-list lookup standing for `HashMap::get` on an object's fields. -/
def lookupField : List (String × Value) → String → Option Value
  | [], _ => none
  | (k, v) :: rest, field => if k = field then some v else lookupField rest field

/-- Assoc-list insert standing for `HashMap::insert` on an object's
fields; returns the map with the key bound to the new value. -/
def insertField : List (String × Value) → String → Value → List (String × Value)
  | [], field, v => [(field, v)]
  | (k, w) :: rest, field, v =>
      if k = field then (field, v) :: rest else (k, w) :: insertField rest field v

namespace GarbageCollectedHeap

/-- `GarbageCollectedHeap::allocate`: wraps the supplied fields as they
are (`marked = false`, `reference_count = 1`) and appends the slot; it
does not descend into the fields. -/
def allocate (hs : HeapState) (data : List (String × Value)) : Nat × HeapState :=
  hs.push ⟨data, false, 1⟩

mutual

/-- `GarbageCollectedHeap::traverse`: mark the root, then recurse into
every pointer-carrying field value. The source has no check of an
already-set `marked` flag, so the recursion is bounded here only by
fuel. -/
def traverseF : Nat → HeapState → Nat → Option HeapState
  | 0, _, _ => none
  | f+1, hs, root =>
    let hs1 := hs.setMarked root true
    traverseValuesF f hs1 (hs1.getObj root).data
termination_by structural f hs root => f

/-- The `for value in root.data.values()` loop of `traverse`. -/
def traverseValuesF : Nat → HeapState → List (String × Value) → Option HeapState
  | 0, _, _ => none
  | _+1, hs, [] => some hs
  | f+1, hs, (_, Value.objectReference pointer) :: rest =>
    match traverseF f hs pointer with
    | some hs1 => traverseValuesF f hs1 rest
    | none => none
  | f+1, hs, _ :: rest => traverseValuesF f hs rest
termination_by structural f hs l => f

end

/-- The `for root in roots` loop of `manage`. -/
def traverseRootsF : Nat → HeapState → List Nat → Option HeapState
  | _, hs, [] => some hs
  | f, hs, root :: rest =>
    match traverseF f hs root with
    | some hs1 => traverseRootsF f hs1 rest
    | none => none

/-- The closing loop of `manage`, resetting `marked` on the listed
(surviving) slots. -/
def unmarkAll : HeapState → List Nat → HeapState
  | hs, [] => hs
  | hs, p :: rest => unmarkAll (hs.setMarked p false) rest

/-- `GarbageCollectedHeap::manage`: traverse from every root, retain the
marked slots, then reset `marked` on the survivors. -/
def manage (f : Nat) (hs : HeapState) (roots : List Nat) : Option HeapState :=
  match traverseRootsF f hs roots with
  | some hs1 =>
    let hs2 : HeapState := ⟨hs1.objs, hs1.live.filter (fun p => (hs1.getObj p).marked)⟩
    some (unmarkAll hs2 hs2.live)
  | none => none

end GarbageCollectedHeap

namespace NaiveHeap

mutual

/-- The `data.into_iter().map(...)` promotion loop of
`NaiveHeap::allocate`. -/
def promote : HeapState → List (String × Value) → List (String × Value) × HeapState
  | hs, [] => ([], hs)
  | hs, (key, v) :: rest =>
    let (v', hs1) := promoteValue hs v
    let (rest', hs2) := promote hs1 rest
    ((key, v') :: rest', hs2)

/-- One `match value` step of that loop: a nested inline record is
recursively allocated (the `self.allocate(object)` call written inline:
promote its fields, then append its slot) and replaced by the returned
pointer; any other value passes through. -/
def promoteValue : HeapState → Value → Value × HeapState
  | hs, Value.object obj =>
    let (obj', hs1) := promote hs obj
    let (h, hs2) := hs1.push ⟨obj', false, 1⟩
    (Value.objectReference h, hs2)
  | hs, v => (v, hs)

end

/-- `NaiveHeap::allocate`: promote every nested inline record into its
own slot, then append the slot for this record. -/
def allocate (hs : HeapState) (data : List (String × Value)) : Nat × HeapState :=
  let (data', hs1) := promote hs data
  hs1.push ⟨data', false, 1⟩

end NaiveHeap

namespace ReferenceCountedHeap

/-- `ReferenceCountedHeap::increment`: add one to the target's count
(and nothing else). -/
def increment (hs : HeapState) (p : Nat) : HeapState :=
  hs.setCount p ((hs.getObj p).reference_count + 1)

mutual

/-- The `data.into_iter().map(...)` loop of
`ReferenceCountedHeap::allocate`. -/
def adjust : HeapState → List (String × Value) → List (String × Value) × HeapState
  | hs, [] => ([], hs)
  | hs, (key, v) :: rest =>
    let (v', hs1) := adjustValue hs v
    let (rest', hs2) := adjust hs1 rest
    ((key, v') :: rest', hs2)

/-- One `match value` step of that loop: an already-heap-resident child
has its count incremented; a nested inline record is allocated
recursively (the `self.allocate(object)` call written inline: adjust
its fields, then append its slot) and replaced by the returned
pointer; any other value passes through. -/
def adjustValue : HeapState → Value → Value × HeapState
  | hs, Value.objectReference pointer => (Value.objectReference pointer, increment hs pointer)
  | hs, Value.object obj =>
    let (obj', hs1) := adjust hs obj
    let (h, hs2) := hs1.push ⟨obj', false, 1⟩
    (Value.objectReference h, hs2)
  | hs, v => (v, hs)

end

/-- `ReferenceCountedHeap::allocate`. -/
def allocate (hs : HeapState) (data : List (String × Value)) : Nat × HeapState :=
  let (data', hs1) := adjust hs data
  hs1.push ⟨data', false, 1⟩

/-- `self.heap.retain(|object| object.borrow().reference_count > 0)`. -/
def retainPositive (hs : HeapState) : HeapState :=
  ⟨hs.objs, hs.live.filter (fun p => 0 < (hs.getObj p).reference_count)⟩

mutual

/-- `ReferenceCountedHeap::decrement`: at count 0 just re-run `retain`;
at count 1 zero the count, recursively decrement every pointer field of
the object, then `retain`; at count 2 or more just subtract one. -/
def decrementF : Nat → HeapState → Nat → HeapState
  | 0, hs, _ => hs
  | f+1, hs, p =>
    match (hs.getObj p).reference_count with
    | 0 => retainPositive hs
    | 1 =>
      let hs1 := hs.setCount p 0
      let hs2 := decrementValuesF f hs1 (hs1.getObj p).data
      retainPositive hs2
    | n+2 => hs.setCount p (n+1)
termination_by structural f hs p => f

/-- The `for value in object.borrow().data.values()` loop of
`decrement`. -/
def decrementValuesF : Nat → HeapState → List (String × Value) → HeapState
  | 0, hs, _ => hs
  | _+1, hs, [] => hs
  | f+1, hs, (_, Value.objectReference pointer) :: rest =>
    decrementValuesF f (decrementF f hs pointer) rest
  | f+1, hs, _ :: rest => decrementValuesF f hs rest
termination_by structural f hs l => f

end

/-- Fuel that always suffices for `decrementF`: a decrement chain enters
the count-1 arm of any given object at most once (the count is zeroed
before recursing, so a revisit lands in the terminal count-0 arm), so
the depth of the call tree is bounded by the total field count plus two
steps per object. -/
def decrementFuel (hs : HeapState) : Nat :=
  (hs.objs.map (fun o => o.data.length + 2)).sum + 1

def decrement (hs : HeapState) (p : Nat) : HeapState :=
  decrementF (decrementFuel hs) hs p

/-- `ReferenceCountedHeap::conditionally_decrement`. -/
def conditionallyDecrement (hs : HeapState) (v : Value) : HeapState :=
  match v with
  | .objectReference pointer => decrement hs pointer
  | _ => hs

end ReferenceCountedHeap

/-- The three variants of `ManagedHeap` (`heap/mod.rs`), as the tag that
selects which strategy's operations run. -/
inductive HeapKind where
  | garbageCollected
  | naive
  | referenceCounted
deriving Repr, DecidableEq

end Slang

namespace Slang

/-! ## Environments and the call stack (`environment.rs`, `stack.rs`) -/

/-- `Environment` of `environment.rs`: a scope (assoc list standing for
the `HashMap<String, Option<Value>>`) and the `parent` handle into the
environment arena. -/
structure Environment where
  parent : Option Nat
  scope : List (String × Option Value)

/-- `HashMap::get` on a scope: `none` = key absent, `some none` =
declared but uninitialised, `some (some v)` = initialised. -/
def scopeFind : List (String × Option Value) → String → Option (Option Value)
  | [], _ => none
  | (k, v) :: rest, identifier => if k = identifier then some v else scopeFind rest identifier

/-- `HashMap::insert` on a scope. -/
def scopeInsert : List (String × Option Value) → String → Option Value → List (String × Option Value)
  | [], identifier, v => [(identifier, v)]
  | (k, w) :: rest, identifier, v =>
    if k = identifier then (identifier, v) :: rest
    else (k, w) :: scopeInsert rest identifier v

/-- The whole interpreter state threaded by the evaluator: the
environment arena with the stack of chain heads (head of `stack` is the
Rust `Vec`'s last element), the heap with its strategy tag, and the
diagnostic log (`Logger`) as the list of
`(heap objects count, stack frames count)` entries. -/
structure InterpState where
  envs : List Environment
  stack : List Nat
  heap : HeapState
  kind : HeapKind
  log : List (Nat × Nat)

def InterpState.getEnv (st : InterpState) (h : Nat) : Environment :=
  st.envs.getD h ⟨none, []⟩

def InterpState.setEnv (st : InterpState) (h : Nat) (e : Environment) : InterpState :=
  { st with envs := st.envs.set h e }

namespace Stack

/-- `Stack::top` (the stack is never empty in any reachable state). -/
def topEnv (st : InterpState) : Nat :=
  st.stack.headD 0

/-- `Stack::frames_count`. -/
def frames_count (st : InterpState) : Nat :=
  st.stack.length

end Stack

/-- `Environment::define`: insert into the given environment's own
scope. -/
def envDefine (st : InterpState) (h : Nat) (identifier : String) (v : Option Value) : InterpState :=
  st.setEnv h ⟨(st.getEnv h).parent, scopeInsert (st.getEnv h).scope identifier v⟩

/-- `stack.top().borrow_mut().define(...)`. -/
def defineTop (st : InterpState) (identifier : String) (v : Option Value) : InterpState :=
  envDefine st (Stack.topEnv st) identifier v

/-- `Environment::get`, walking the parent chain. The fuel bounds the
chain length; every reachable state has parent handles strictly smaller
than the child's, so `envs.length + 1` (used by `envGet`) never runs
out. -/
def envGetF : Nat → InterpState → Nat → String → Except EnvironmentError Value
  | 0, _, _, identifier => .error (.UndefinedTarget identifier)
  | f+1, st, h, identifier =>
    match scopeFind (st.getEnv h).scope identifier with
    | some (some value) => .ok value
    | some none => .error (.UninitialisedTarget identifier)
    | none =>
      match (st.getEnv h).parent with
      | some parent => envGetF f st parent identifier
      | none => .error (.UndefinedTarget identifier)

def envGet (st : InterpState) (h : Nat) (identifier : String) : Except EnvironmentError Value :=
  envGetF (st.envs.length + 1) st h identifier

/-- `Environment::assign`: mutate the innermost scope that binds the
identifier and return the previous contents of its slot. -/
def envAssignF : Nat → InterpState → Nat → String → Option Value →
    Except EnvironmentError (Option Value × InterpState)
  | 0, _, _, identifier, _ => .error (.UndefinedAssignmentTarget identifier)
  | f+1, st, h, identifier, v =>
    match scopeFind (st.getEnv h).scope identifier with
    | some previous =>
      .ok (previous, st.setEnv h ⟨(st.getEnv h).parent, scopeInsert (st.getEnv h).scope identifier v⟩)
    | none =>
      match (st.getEnv h).parent with
      | some parent => envAssignF f st parent identifier v
      | none => .error (.UndefinedAssignmentTarget identifier)

def envAssign (st : InterpState) (h : Nat) (identifier : String) (v : Option Value) :
    Except EnvironmentError (Option Value × InterpState) :=
  envAssignF (st.envs.length + 1) st h identifier v

/-- `Environment::roots`: the object references held directly in this
scope, then the parent's roots. -/
def envRootsF : Nat → InterpState → Nat → List Nat
  | 0, _, _ => []
  | f+1, st, h =>
    (st.getEnv h).scope.filterMap (fun kv =>
      match kv.2 with
      | some (Value.objectReference pointer) => some pointer
      | _ => none)
    ++ (match (st.getEnv h).parent with
      | some parent => envRootsF f st parent
      | none => [])

def envRoots (st : InterpState) (h : Nat) : List Nat :=
  envRootsF (st.envs.length + 1) st h

/-- `Environment::values`: the initialised values of this scope. -/
def envValues (st : InterpState) (h : Nat) : List Value :=
  (st.getEnv h).scope.filterMap (fun kv => kv.2)

/-- `Environment::global`: walk to the outermost (parentless)
environment. -/
def globalF : Nat → InterpState → Nat → Nat
  | 0, _, h => h
  | f+1, st, h =>
    match (st.getEnv h).parent with
    | some parent => globalF f st parent
    | none => h

def globalOf (st : InterpState) (h : Nat) : Nat :=
  globalF (st.envs.length + 1) st h

namespace Stack

/-- `Stack::enter_scope`: replace the top chain head with a fresh
environment parented at it. -/
def enterScope (st : InterpState) : InterpState :=
  match st.stack with
  | [] => st
  | top :: rest =>
    { st with
      envs := st.envs ++ [⟨some top, []⟩]
      stack := st.envs.length :: rest }

/-- `Stack::exit_scope`: replace the top chain head with its parent.
(The source's loop over `returned_object_references` is dead code in
this snapshot: nothing ever calls `add_returned_object_reference` and
`environment.rs` has no such field, so the list is always empty.) -/
def exitScope (st : InterpState) : InterpState :=
  match st.stack with
  | [] => st
  | top :: rest =>
    match (st.getEnv top).parent with
    | some parent => { st with stack := parent :: rest }
    | none => st

/-- `Stack::push`: push a fresh call frame parented at the global
environment (found by walking up from the first stack entry). -/
def pushFrame (st : InterpState) : InterpState :=
  let global :=
    match st.stack.getLast? with
    | some first => some (globalOf st first)
    | none => none
  { st with
    envs := st.envs ++ [⟨global, []⟩]
    stack := st.envs.length :: st.stack }

/-- `Stack::pop`. -/
def pop (st : InterpState) : InterpState :=
  { st with stack := st.stack.tail }

/-- `Stack::roots`: the roots of every frame's chain, bottom of the
stack first (the Rust `Vec` iterates oldest first). -/
def rootsAux (st : InterpState) : List Nat → List Nat
  | [] => []
  | h :: rest => envRoots st h ++ rootsAux st rest

def roots (st : InterpState) : List Nat :=
  rootsAux st st.stack.reverse

end Stack

/-- `Environment::new(None)` seeds the global scope with the two native
functions. -/
def globalEnvironment : Environment :=
  ⟨none,
    [("print", some (Value.function (Function.native NativeFunction.Print))),
     ("format", some (Value.function (Function.native NativeFunction.Format)))]⟩

/-- `Stack::new()` plus an empty heap of the chosen strategy: the state
a program starts in. -/
def initialState (kind : HeapKind) : InterpState :=
  { envs := [globalEnvironment]
    stack := [0]
    heap := ⟨[], []⟩
    kind := kind
    log := [] }

/-! ## `ManagedHeap` dispatch (`heap/mod.rs`) and strategy hooks -/

/-- `ManagedHeap::allocate`. -/
def ManagedHeap.allocate (st : InterpState) (data : List (String × Value)) : Nat × InterpState :=
  match st.kind with
  | .garbageCollected =>
    let (h, hs) := GarbageCollectedHeap.allocate st.heap data
    (h, { st with heap := hs })
  | .naive =>
    let (h, hs) := NaiveHeap.allocate st.heap data
    (h, { st with heap := hs })
  | .referenceCounted =>
    let (h, hs) := ReferenceCountedHeap.allocate st.heap data
    (h, { st with heap := hs })

/-- `if let ManagedHeap::ReferenceCounted(heap) = heap { heap.increment(p) }`. -/
def ManagedHeap.rcIncrement (st : InterpState) (p : Nat) : InterpState :=
  match st.kind with
  | .referenceCounted => { st with heap := ReferenceCountedHeap.increment st.heap p }
  | _ => st

/-- `if let ManagedHeap::ReferenceCounted(heap) = heap { heap.conditionally_decrement(v) }`. -/
def ManagedHeap.rcConditionallyDecrement (st : InterpState) (v : Value) : InterpState :=
  match st.kind with
  | .referenceCounted => { st with heap := ReferenceCountedHeap.conditionallyDecrement st.heap v }
  | _ => st

/-- The store-site protocol shared by variable declaration, assignment,
field assignment and argument passing: an inline record is allocated
(becoming a reference), an already-heap-resident reference is
refcount-incremented under the reference-counted strategy, anything
else is stored unchanged. -/
def promoteForStore (st : InterpState) (v : Value) : Value × InterpState :=
  match v with
  | .object data =>
    let (h, st1) := ManagedHeap.allocate st data
    (Value.objectReference h, st1)
  | .objectReference pointer => (v, ManagedHeap.rcIncrement st pointer)
  | _ => (v, st)

end Slang

namespace Slang

/-! ## The evaluator (`expression.rs`, `statement.rs`, `main.rs`) -/

/-- Result of an evaluator operation: success or a typed evaluation
error, each carrying the state as mutated so far (matching `&mut`
threading in Rust), or fuel exhaustion of the embedding. -/
inductive Res (α : Type) where
  | ok : α → InterpState → Res α
  | err : EvaluationError → InterpState → Res α
  | fuelOut : Res α

/-- `logger.new_entry(...)` preceded by the two `define` calls at the
top of `Statement::execute`: the diagnostic sample taken before every
statement. -/
def logStep (st : InterpState) : InterpState :=
  let st1 := defineTop st "STACK_FRAMES_COUNT"
    (some (Value.integer (Int.ofNat (Stack.frames_count st))))
  let st2 := defineTop st1 "HEAP_OBJECTS_COUNT"
    (some (Value.integer (Int.ofNat st1.heap.objects_count)))
  { st2 with log := st2.log ++ [(st2.heap.objects_count, Stack.frames_count st2)] }

/-- The tail of the `VariableDeclaration` arm after the initialiser has
been evaluated: read the previous binding (note: `get` searches the
whole chain), run the store-site protocol on the initialiser, decrement
the previous value under refcounting, then define. -/
def declFinish (st : InterpState) (identifier : String) (initialiser : Option Value) :
    Res ControlFlow :=
  let previous := envGet st (Stack.topEnv st) identifier
  let (initialiser', st1) :=
    match initialiser with
    | some v =>
      let (v', s') := promoteForStore st v
      (some v', s')
    | none => (none, st)
  let st2 :=
    match previous with
    | .ok prev => ManagedHeap.rcConditionallyDecrement st1 prev
    | .error _ => st1
  .ok ControlFlow.Continue (defineTop st2 identifier initialiser')

/-- `Expression::evaluate_ternary`. -/
def evaluateTernary (evNN : Expression → InterpState → Res Value)
    (ev : Expression → InterpState → Res (Option Value))
    (condition left right : Expression) (st : InterpState) : Res (Option Value) :=
  match evNN condition st with
  | .ok (Value.boolean c) st1 => if c then ev left st1 else ev right st1
  | .ok condition' st1 => .err (.NonBooleanTernaryCondition condition'.slangType) st1
  | .err e s => .err e s
  | .fuelOut => .fuelOut

/-- `Expression::binary_operands`. -/
def binaryOperands (evNN : Expression → InterpState → Res Value)
    (left right : Expression) (st : InterpState) : Res (Value × Value) :=
  match evNN left st with
  | .ok l st1 =>
    match evNN right st1 with
    | .ok r st2 => .ok (l, r) st2
    | .err e s => .err e s
    | .fuelOut => .fuelOut
  | .err e s => .err e s
  | .fuelOut => .fuelOut

/-- `Expression::evaluate_unary`. -/
def evaluateUnary (evNN : Expression → InterpState → Res Value)
    (operator : UnaryOperator) (operand : Expression) (st : InterpState) : Res (Option Value) :=
  match evNN operand st with
  | .ok operand' st1 =>
    match operator, operand' with
    | .Minus, Value.integer v => .ok (some (Value.integer (-v))) st1
    | .Minus, Value.float v => .ok (some (Value.float (-v))) st1
    | .NOT, Value.integer v => .ok (some (Value.integer (-(v + 1)))) st1
    | .NOT, Value.boolean v => .ok (some (Value.boolean (!v))) st1
    | op, v => .err (.InvalidUnaryType op v.slangType) st1
  | .err e s => .err e s
  | .fuelOut => .fuelOut

/-- `Expression::evaluate_binary`. The `i32` bitwise complement `!v` is
written `-(v + 1)`; integer division truncates toward zero as in Rust. -/
def evaluateBinary (evNN : Expression → InterpState → Res Value)
    (left : Expression) (operator : BinaryOperator) (right : Expression)
    (st : InterpState) : Res (Option Value) :=
  match operator with
  | .AND =>
    match evNN left st with
    | .ok (Value.boolean l) st1 =>
      if l then
        match evNN right st1 with
        | .ok (Value.boolean r) st2 => .ok (some (Value.boolean (l && r))) st2
        | .ok r st2 => .err (.InvalidBinaryTypes .Boolean .AND (some r.slangType)) st2
        | .err e s => .err e s
        | .fuelOut => .fuelOut
      else .ok (some (Value.boolean false)) st1
    | .ok l st1 => .err (.InvalidBinaryTypes l.slangType .AND none) st1
    | .err e s => .err e s
    | .fuelOut => .fuelOut
  | .OR =>
    match evNN left st with
    | .ok (Value.boolean l) st1 =>
      if l then .ok (some (Value.boolean true)) st1
      else
        match evNN right st1 with
        | .ok (Value.boolean r) st2 => .ok (some (Value.boolean (l || r))) st2
        | .ok r st2 => .err (.InvalidBinaryTypes .Boolean .OR (some r.slangType)) st2
        | .err e s => .err e s
        | .fuelOut => .fuelOut
    | .ok l st1 => .err (.InvalidBinaryTypes l.slangType .OR none) st1
    | .err e s => .err e s
    | .fuelOut => .fuelOut
  | op =>
    match binaryOperands evNN left right st with
    | .ok (l, r) st1 =>
      match op, l, r with
      | .Add, Value.string a, Value.string b => .ok (some (Value.string (a ++ b))) st1
      | .Add, Value.integer a, Value.integer b => .ok (some (Value.integer (a + b))) st1
      | .Add, Value.float a, Value.float b => .ok (some (Value.float (a + b))) st1
      | .Subtract, Value.integer a, Value.integer b => .ok (some (Value.integer (a - b))) st1
      | .Subtract, Value.float a, Value.float b => .ok (some (Value.float (a - b))) st1
      | .Multiply, Value.integer a, Value.integer b => .ok (some (Value.integer (a * b))) st1
      | .Multiply, Value.float a, Value.float b => .ok (some (Value.float (a * b))) st1
      | .Divide, Value.integer a, Value.integer b =>
        if b = 0 then .err .DivisionByZero st1
        else .ok (some (Value.integer (Int.tdiv a b))) st1
      | .Divide, Value.float a, Value.float b =>
        if b == 0.0 then .err .DivisionByZero st1
        else .ok (some (Value.float (a / b))) st1
      | .Exponent, Value.integer a, Value.integer b =>
        if b < 0 then
          if a = 0 then .err .DivisionByZero st1
          else .ok (some (Value.integer 0)) st1
        else .ok (some (Value.integer (a ^ b.toNat))) st1
      | .Exponent, Value.float a, Value.float b => .ok (some (Value.float (a.pow b))) st1
      | .EqualTo, Value.string a, Value.string b => .ok (some (Value.boolean (a == b))) st1
      | .EqualTo, Value.integer a, Value.integer b => .ok (some (Value.boolean (a == b))) st1
      | .EqualTo, Value.float a, Value.float b => .ok (some (Value.boolean (a == b))) st1
      | .EqualTo, Value.boolean a, Value.boolean b => .ok (some (Value.boolean (a == b))) st1
      | .NotEqualTo, Value.string a, Value.string b => .ok (some (Value.boolean (a != b))) st1
      | .NotEqualTo, Value.integer a, Value.integer b => .ok (some (Value.boolean (a != b))) st1
      | .NotEqualTo, Value.float a, Value.float b => .ok (some (Value.boolean (a != b))) st1
      | .NotEqualTo, Value.boolean a, Value.boolean b => .ok (some (Value.boolean (a != b))) st1
      | .GreaterThan, Value.integer a, Value.integer b => .ok (some (Value.boolean (decide (a > b)))) st1
      | .GreaterThan, Value.float a, Value.float b => .ok (some (Value.boolean (decide (a > b)))) st1
      | .GreaterThanOrEqualTo, Value.integer a, Value.integer b => .ok (some (Value.boolean (decide (a ≥ b)))) st1
      | .GreaterThanOrEqualTo, Value.float a, Value.float b => .ok (some (Value.boolean (decide (a ≥ b)))) st1
      | .LessThan, Value.integer a, Value.integer b => .ok (some (Value.boolean (decide (a < b)))) st1
      | .LessThan, Value.float a, Value.float b => .ok (some (Value.boolean (decide (a < b)))) st1
      | .LessThanOrEqualTo, Value.integer a, Value.integer b => .ok (some (Value.boolean (decide (a ≤ b)))) st1
      | .LessThanOrEqualTo, Value.float a, Value.float b => .ok (some (Value.boolean (decide (a ≤ b)))) st1
      | .BitwiseAND, Value.integer a, Value.integer b => .ok (some (Value.integer (Int.land a b))) st1
      | .BitwiseAND, Value.boolean a, Value.boolean b => .ok (some (Value.boolean (a && b))) st1
      | .BitwiseOR, Value.integer a, Value.integer b => .ok (some (Value.integer (Int.lor a b))) st1
      | .BitwiseOR, Value.boolean a, Value.boolean b => .ok (some (Value.boolean (a || b))) st1
      | opr, a, b => .err (.InvalidBinaryTypes a.slangType opr (some b.slangType)) st1
    | .err e s => .err e s
    | .fuelOut => .fuelOut

/-- The `arguments.into_iter().filter_map(...)` loop of
`Expression::evaluate_call`: each argument is evaluated and run through
the store-site protocol; an argument whose evaluation fails is silently
dropped (`Err(_) => None` under the source's
`TODO: why is this error being hidden?`), keeping the state mutated so
far. -/
def evalArgumentsAux (evNN : Expression → InterpState → Res Value) :
    List Expression → InterpState → Res (List Value)
  | [], st => .ok [] st
  | argument :: rest, st =>
    match evNN argument st with
    | .ok v st1 =>
      let (v', st2) := promoteForStore st1 v
      match evalArgumentsAux evNN rest st2 with
      | .ok vs st3 => .ok (v' :: vs) st3
      | .err e s => .err e s
      | .fuelOut => .fuelOut
    | .err _ st1 => evalArgumentsAux evNN rest st1
    | .fuelOut => .fuelOut

/-- The parameter-binding loop of `evaluate_call`
(`parameters.zip(evaluated_arguments)` defined into the call scope). -/
def defineParameters : InterpState → List (String × Value) → InterpState
  | st, [] => st
  | st, (parameter, argument) :: rest =>
    defineParameters (defineTop st parameter (some argument)) rest

/-- `for value in evaluated_arguments { heap.conditionally_decrement(value) }`
(reference-counted strategy only). -/
def rcDecrementValues : InterpState → List Value → InterpState
  | st, [] => st
  | st, v :: rest => rcDecrementValues (ManagedHeap.rcConditionallyDecrement st v) rest

/-- The field-evaluation loop of the `Expression::Object` arm (errors
propagate here, unlike for call arguments). -/
def evalObjectFieldsAux (evNN : Expression → InterpState → Res Value) :
    List (String × Expression) → InterpState → Res (List (String × Value))
  | [], st => .ok [] st
  | (identifier, expression) :: rest, st =>
    match evNN expression st with
    | .ok v st1 =>
      match evalObjectFieldsAux evNN rest st1 with
      | .ok fields st2 => .ok ((identifier, v) :: fields) st2
      | .err e s => .err e s
      | .fuelOut => .fuelOut
    | .err e s => .err e s
    | .fuelOut => .fuelOut

/-- The buffer loop of the `Format` native. -/
def evalFormatAux (evNN : Expression → InterpState → Res Value) :
    List Expression → String → InterpState → Res (Option Value)
  | [], buffer, st => .ok (some (Value.string buffer)) st
  | argument :: rest, buffer, st =>
    match evNN argument st with
    | .ok v st1 => evalFormatAux evNN rest (buffer ++ v.display) st1
    | .err e s => .err e s
    | .fuelOut => .fuelOut

/-- `Statement::FunctionDefinition` recognizer used by the hoisting
loops of the `Block` arm and of `main.rs::run`. -/
def isFunctionDefinition : Statement → Bool
  | .functionDefinition _ _ _ => true
  | _ => false

/-- The first loop of the `Block` arm (and of `main.rs::run`): execute
the function definitions in textual order, collecting nothing. -/
def executeDefinitionsAux (ex : Statement → InterpState → Res ControlFlow) :
    List Statement → InterpState → Res Unit
  | [], st => .ok () st
  | s :: rest, st =>
    if isFunctionDefinition s then
      match ex s st with
      | .ok _ st1 => executeDefinitionsAux ex rest st1
      | .err e s1 => .err e s1
      | .fuelOut => .fuelOut
    else executeDefinitionsAux ex rest st

/-- The second loop of the `Block` arm (and of `main.rs::run`): execute
the collected non-definitions in textual order, stopping at a `Break`.
(The source collects them into a vector during the first pass; skipping
the definitions on a second pass executes the same statements in the
same order.) -/
def executeNonDefinitionsAux (ex : Statement → InterpState → Res ControlFlow) :
    List Statement → InterpState → Res ControlFlow
  | [], st => .ok ControlFlow.Continue st
  | s :: rest, st =>
    if isFunctionDefinition s then executeNonDefinitionsAux ex rest st
    else
      match ex s st with
      | .ok (ControlFlow.Break value) st1 => .ok (ControlFlow.Break value) st1
      | .ok ControlFlow.Continue st1 => executeNonDefinitionsAux ex rest st1
      | .err e s1 => .err e s1
      | .fuelOut => .fuelOut

mutual

/-- `Expression::evaluate`. Fuel decreases on every recursive step of
the evaluator; straight-line work never exhausts it first. -/
def Expression.evaluate : Nat → Expression → InterpState → Res (Option Value)
  | 0, _, _ => .fuelOut
  | f+1, .ternary condition left right, st =>
    evaluateTernary (fun e s => Expression.evaluateNotNothing f e s)
      (fun e s => Expression.evaluate f e s) condition left right st
  | f+1, .binary left operator right, st =>
    evaluateBinary (fun e s => Expression.evaluateNotNothing f e s) left operator right st
  | f+1, .unary operator operand, st =>
    evaluateUnary (fun e s => Expression.evaluateNotNothing f e s) operator operand st
  | f+1, .call function arguments, st =>
    -- `Expression::evaluate_call`, written inline.
    match Expression.evaluateNotNothing f function st with
    | .ok (Value.function (Function.userDefined parameters block)) st1 =>
      if parameters.length ≠ arguments.length then
        .err (.IncorrectArgumentCount parameters.length arguments.length) st1
      else
        match evalArgumentsAux (fun e s => Expression.evaluateNotNothing f e s) arguments st1 with
        | .ok evaluated_arguments st2 =>
          let st3 := Stack.pushFrame st2
          let st4 := defineParameters st3 (parameters.zip evaluated_arguments)
          -- the rc decrement of the arguments and the frame pop run on
          -- the success and error paths alike (only `?`-style fuel
          -- exhaustion skips them)
          match Statement.execute f block st4 with
          | .ok control st5 =>
            let value := match control with
              | ControlFlow.Break v => v
              | ControlFlow.Continue => none
            .ok value (Stack.pop (rcDecrementValues st5 evaluated_arguments))
          | .err e st5 =>
            .err e (Stack.pop (rcDecrementValues st5 evaluated_arguments))
          | .fuelOut => .fuelOut
        | .err e s => .err e s
        | .fuelOut => .fuelOut
    | .ok (Value.function (Function.native NativeFunction.Print)) st1 =>
      match arguments with
      | [] => .ok none st1
      | [expression] =>
        match Expression.evaluateNotNothing f expression st1 with
        | .ok _ st2 => .ok none st2
        | .err e s => .err e s
        | .fuelOut => .fuelOut
      | _ => .err (.IncorrectArgumentCount 1 arguments.length) st1
    | .ok (Value.function (Function.native NativeFunction.Format)) st1 =>
      evalFormatAux (fun e s => Expression.evaluateNotNothing f e s) arguments "" st1
    | .ok other st1 => .err (.AttemptedCallOfNonFunction other.slangType) st1
    | .err e s => .err e s
    | .fuelOut => .fuelOut
  | f+1, .assignment identifier value, st =>
    match Expression.evaluate f value st with
    | .ok next st1 =>
      let (next', st2) :=
        match next with
        | some v =>
          let (v', s') := promoteForStore st1 v
          (some v', s')
        | none => (none, st1)
      match envAssign st2 (Stack.topEnv st2) identifier next' with
      | .ok (previous, st3) =>
        let st4 :=
          match previous with
          | some prev => ManagedHeap.rcConditionallyDecrement st3 prev
          | none => st3
        .ok next' st4
      | .error e => .err e.toEvaluationError st2
    | .err e s => .err e s
    | .fuelOut => .fuelOut
  | f+1, .grouping contained, st => Expression.evaluate f contained st
  | _+1, .literal value, st => .ok (some value) st
  | _+1, .var identifier, st =>
    match envGet st (Stack.topEnv st) identifier with
    | .ok value => .ok (some value) st
    | .error e => .err e.toEvaluationError st
  | f+1, .getField object field, st =>
    match Expression.evaluateNotNothing f object st with
    | .ok (Value.objectReference pointer) st1 =>
      match lookupField (st1.heap.getObj pointer).data field with
      | some value => .ok (some value) st1
      | none => .err (.UndefinedField field) st1
    | .ok (Value.object fields) st1 =>
      match lookupField fields field with
      | some value => .ok (some value) st1
      | none => .err (.UndefinedField field) st1
    | .ok attempt st1 => .err (.AttemptToAccessNonObject attempt.slangType) st1
    | .err e s => .err e s
    | .fuelOut => .fuelOut
  | f+1, .setField object field value, st =>
    match Expression.evaluateNotNothing f object st with
    | .ok (Value.objectReference pointer) st1 =>
      match Expression.evaluateNotNothing f value st1 with
      | .ok next st2 =>
        let (next', st3) := promoteForStore st2 next
        let previous := lookupField (st3.heap.getObj pointer).data field
        let obj := st3.heap.getObj pointer
        let hs4 := st3.heap.setObj pointer ⟨insertField obj.data field next', obj.marked, obj.reference_count⟩
        let st4 := { st3 with heap := hs4 }
        let st5 :=
          match previous with
          | some prev => ManagedHeap.rcConditionallyDecrement st4 prev
          | none => st4
        .ok none st5
      | .err e s => .err e s
      | .fuelOut => .fuelOut
    | .ok attempt st1 => .err (.AttemptToAccessNonObject attempt.slangType) st1
    | .err e s => .err e s
    | .fuelOut => .fuelOut
  | f+1, .object unevaluated_fields, st =>
    match evalObjectFieldsAux (fun e s => Expression.evaluateNotNothing f e s) unevaluated_fields st with
    | .ok fields st1 => .ok (some (Value.object fields)) st1
    | .err e s => .err e s
    | .fuelOut => .fuelOut
termination_by structural f e st => f

/-- `Expression::evaluate_not_nothing`. -/
def Expression.evaluateNotNothing : Nat → Expression → InterpState → Res Value
  | 0, _, _ => .fuelOut
  | f+1, e, st =>
    match Expression.evaluate f e st with
    | .ok (some value) st1 => .ok value st1
    | .ok none st1 => .err .AttemptToUseNothing st1
    | .err er st1 => .err er st1
    | .fuelOut => .fuelOut
termination_by structural f e st => f

/-- `Statement::execute`. Every execution starts by defining the two
diagnostic bindings in the top scope and logging the sample
(`logStep`). -/
def Statement.execute : Nat → Statement → InterpState → Res ControlFlow
  | 0, _, _ => .fuelOut
  | f+1, s, st0 =>
    let st := logStep st0
    match s with
    | .variableDeclaration identifier initialiser =>
      match initialiser with
      | some init =>
        match Expression.evaluateNotNothing f init st with
        | .ok v st1 => declFinish st1 identifier (some v)
        | .err e s1 => .err e s1
        | .fuelOut => .fuelOut
      | none => declFinish st identifier none
    | .functionDefinition identifier parameters block =>
      .ok ControlFlow.Continue
        (defineTop st identifier (some (Value.function (Function.userDefined parameters block))))
    | .ifStatement condition execute_if_true execute_if_false =>
      match Expression.evaluateNotNothing f condition st with
      | .ok (Value.boolean condition') st1 =>
        if condition' then Statement.execute f execute_if_true st1
        else
          match execute_if_false with
          | some if_false => Statement.execute f if_false st1
          | none => .ok ControlFlow.Continue st1
      | .ok condition' st1 =>
        .err (.NonBooleanControlFlowCondition condition'.slangType "if-statement") st1
      | .err e s1 => .err e s1
      | .fuelOut => .fuelOut
    | .whileLoop condition block => Statement.executeWhile f condition block st
    | .block statements =>
      let st1 := Stack.enterScope st
      match executeDefinitionsAux (fun s2 s3 => Statement.execute f s2 s3) statements st1 with
      | .ok _ st2 =>
        match executeNonDefinitionsAux (fun s2 s3 => Statement.execute f s2 s3) statements st2 with
        | .ok return_value st3 =>
          let st4 :=
            match return_value with
            | ControlFlow.Break (some (Value.objectReference value)) =>
              ManagedHeap.rcIncrement st3 value
            | _ => st3
          let st5 :=
            match st4.kind with
            | HeapKind.referenceCounted => rcDecrementValues st4 (envValues st4 (Stack.topEnv st4))
            | _ => st4
          let st6 := Stack.exitScope st5
          match st6.kind with
          | HeapKind.garbageCollected =>
            let roots := Stack.roots st6 ++
              (match return_value with
               | ControlFlow.Break (some (Value.objectReference pointer)) => [pointer]
               | _ => [])
            match GarbageCollectedHeap.manage f st6.heap roots with
            | some hs => .ok return_value { st6 with heap := hs }
            | none => .fuelOut
          | _ => .ok return_value st6
        | .err e s1 => .err e s1
        | .fuelOut => .fuelOut
      | .err e s1 => .err e s1
      | .fuelOut => .fuelOut
    | .returnStatement expression =>
      match expression with
      | some e =>
        match Expression.evaluate f e st with
        | .ok value st1 => .ok (ControlFlow.Break value) st1
        | .err er s1 => .err er s1
        | .fuelOut => .fuelOut
      | none => .ok (ControlFlow.Break none) st
    | .expression expression =>
      match Expression.evaluate f expression st with
      | .ok _ st1 => .ok ControlFlow.Continue st1
      | .err e s1 => .err e s1
      | .fuelOut => .fuelOut
termination_by structural f s st => f

/-- The `while ... { ... }` loop of the `WhileLoop` arm: re-evaluate the
condition before every iteration; a `Break` from the body propagates. -/
def Statement.executeWhile : Nat → Expression → Statement → InterpState → Res ControlFlow
  | 0, _, _, _ => .fuelOut
  | f+1, condition, block, st =>
    match Expression.evaluateNotNothing f condition st with
    | .ok (Value.boolean condition') st1 =>
      if condition' then
        match Statement.execute f block st1 with
        | .ok (ControlFlow.Break value) st2 => .ok (ControlFlow.Break value) st2
        | .ok ControlFlow.Continue st2 => Statement.executeWhile f condition block st2
        | .err e s1 => .err e s1
        | .fuelOut => .fuelOut
      else .ok ControlFlow.Continue st1
    | .ok condition' st1 =>
      .err (.NonBooleanControlFlowCondition condition'.slangType "while-loop") st1
    | .err e s1 => .err e s1
    | .fuelOut => .fuelOut
termination_by structural f c b => f

end

/-- `main.rs::run` after a successful parse: execute the function
definitions first (in textual order), then the remaining statements (a
`Break` or an error stops the run; the state reached so far is kept). -/
def run (f : Nat) (statements : List Statement) (st : InterpState) : Res Unit :=
  match executeDefinitionsAux (fun s2 s3 => Statement.execute f s2 s3) statements st with
  | .ok _ st1 =>
    match executeNonDefinitionsAux (fun s2 s3 => Statement.execute f s2 s3) statements st1 with
    | .ok _ st2 => .ok () st2
    | .err e st2 => .err e st2
    | .fuelOut => .fuelOut
  | .err e st1 => .err e st1
  | .fuelOut => .fuelOut

end Slang

namespace Slang

/-! ## Basic lemmas about the arena primitives -/

theorem getD_set_self {α : Type} (l : List α) (i : Nat) (x d : α) (h : i < l.length) :
    (l.set i x).getD i d = x := by
  induction l generalizing i with
  | nil => simp at h
  | cons a rest ih =>
    cases i with
    | zero => rfl
    | succ j => simpa using ih j (by simpa using h)

theorem getD_set_ne {α : Type} (l : List α) (i j : Nat) (x d : α) (h : i ≠ j) :
    (l.set i x).getD j d = l.getD j d := by
  induction l generalizing i j with
  | nil => simp [List.set]
  | cons a rest ih =>
    cases i with
    | zero =>
      cases j with
      | zero => exact absurd rfl h
      | succ k => rfl
    | succ i' =>
      cases j with
      | zero => rfl
      | succ k => simpa using ih i' k (fun hik => h (by simp [hik]))

theorem getD_append_length {α : Type} (l : List α) (x d : α) :
    (l ++ [x]).getD l.length d = x := by
  induction l with
  | nil => rfl
  | cons a rest ih => simp only [List.cons_append, List.length_cons, List.getD_cons_succ]; exact ih

theorem getD_append_lt {α : Type} (l : List α) (x d : α) (q : Nat) (h : q < l.length) :
    (l ++ [x]).getD q d = l.getD q d := by
  induction l generalizing q with
  | nil => simp at h
  | cons a rest ih =>
    cases q with
    | zero => rfl
    | succ k => simpa using ih k (by simpa using h)

theorem getObj_setObj_self (hs : HeapState) (p : Nat) (o : HeapObject) (h : p < hs.objs.length) :
    (hs.setObj p o).getObj p = o :=
  getD_set_self hs.objs p o _ h

theorem getObj_setObj_ne (hs : HeapState) (p q : Nat) (o : HeapObject) (h : q ≠ p) :
    (hs.setObj p o).getObj q = hs.getObj q :=
  getD_set_ne hs.objs p q o _ (fun hpq => h hpq.symm)

theorem setObj_live (hs : HeapState) (p : Nat) (o : HeapObject) :
    (hs.setObj p o).live = hs.live := rfl

theorem setObj_length (hs : HeapState) (p : Nat) (o : HeapObject) :
    (hs.setObj p o).objs.length = hs.objs.length := by
  simp [HeapState.setObj]

/-- `setMarked` changes at most the `marked` flag of the addressed slot. -/
theorem getObj_setMarked (hs : HeapState) (p b q) :
    ((hs.setMarked p b).getObj q).data = (hs.getObj q).data
  ∧ ((hs.setMarked p b).getObj q).reference_count = (hs.getObj q).reference_count
  ∧ (q ≠ p → ((hs.setMarked p b).getObj q).marked = (hs.getObj q).marked) := by
  by_cases hq : q = p
  · subst hq
    by_cases hlen : q < hs.objs.length
    · rw [HeapState.setMarked, getObj_setObj_self hs q _ hlen]
      exact ⟨rfl, rfl, fun hc => absurd rfl hc⟩
    · have : (hs.setMarked q b) = hs.setObj q ⟨(hs.getObj q).data, b, (hs.getObj q).reference_count⟩ := rfl
      rw [HeapState.setMarked]
      unfold HeapState.setObj HeapState.getObj
      rw [List.set_eq_of_length_le (by omega)]
      exact ⟨rfl, rfl, fun hc => absurd rfl hc⟩
  · rw [HeapState.setMarked, getObj_setObj_ne hs p q _ hq]
    exact ⟨rfl, rfl, fun _ => rfl⟩

theorem setMarked_live (hs : HeapState) (p : Nat) (b : Bool) :
    (hs.setMarked p b).live = hs.live := rfl

theorem setMarked_length (hs : HeapState) (p : Nat) (b : Bool) :
    (hs.setMarked p b).objs.length = hs.objs.length :=
  setObj_length _ _ _

/-! ## C2 -/

/-- C2: under the reference-counted strategy, `increment(p)` adds
exactly 1 to `p`'s own reference count and modifies nothing else — the
strategy's vector (heap membership) is unchanged, every slot's fields
and mark are unchanged, every other slot's count is unchanged, and the
arena does not grow or shrink; in particular `increment` never recurses
into `p`'s fields. -/
theorem increment_adds_one_and_nothing_else (hs : HeapState) (p : Nat)
    (h : p < hs.objs.length) :
    (ReferenceCountedHeap.increment hs p).live = hs.live
  ∧ (ReferenceCountedHeap.increment hs p).objs.length = hs.objs.length
  ∧ ((ReferenceCountedHeap.increment hs p).getObj p).reference_count
      = (hs.getObj p).reference_count + 1
  ∧ ((ReferenceCountedHeap.increment hs p).getObj p).data = (hs.getObj p).data
  ∧ ((ReferenceCountedHeap.increment hs p).getObj p).marked = (hs.getObj p).marked
  ∧ (∀ q, q ≠ p → (ReferenceCountedHeap.increment hs p).getObj q = hs.getObj q) := by
  unfold ReferenceCountedHeap.increment HeapState.setCount
  refine ⟨rfl, setObj_length _ _ _, ?_, ?_, ?_, ?_⟩
  · rw [getObj_setObj_self _ _ _ h]
  · rw [getObj_setObj_self _ _ _ h]
  · rw [getObj_setObj_self _ _ _ h]
  · intro q hq
    exact getObj_setObj_ne _ _ _ _ hq

/-- A two-slot heap in which slot 0 holds a reference to slot 1: the
concrete instance for the C2 witness. -/
def c2heap : HeapState :=
  ⟨[⟨[("x", Value.objectReference 1)], false, 1⟩, ⟨[], false, 1⟩], [0, 1]⟩

theorem increment_adds_one_and_nothing_else_witness :
    0 < c2heap.objs.length
  ∧ ((ReferenceCountedHeap.increment c2heap 0).live = c2heap.live
  ∧ (ReferenceCountedHeap.increment c2heap 0).objs.length = c2heap.objs.length
  ∧ ((ReferenceCountedHeap.increment c2heap 0).getObj 0).reference_count
      = (c2heap.getObj 0).reference_count + 1
  ∧ ((ReferenceCountedHeap.increment c2heap 0).getObj 0).data = (c2heap.getObj 0).data
  ∧ ((ReferenceCountedHeap.increment c2heap 0).getObj 0).marked = (c2heap.getObj 0).marked
  ∧ (∀ q, q ≠ 0 → (ReferenceCountedHeap.increment c2heap 0).getObj q = c2heap.getObj q)) :=
  ⟨by decide, increment_adds_one_and_nothing_else c2heap 0 (by decide)⟩

/-! ## C3 -/

/-- A field mapping holding one nested inline (empty) record. -/
def c3data : List (String × Value) := [("inner", Value.object [])]

/-- C3 counterexample: on a mapping with a nested inline record the
tracing heap's `allocate` does not behave like the naive heap's — the
tracing heap appends one slot whose field still holds the inline
record, while the naive heap promotes the nested record into its own
slot (two slots, the parent field rewritten to a reference). -/
theorem gc_allocate_differs_from_naive :
    (GarbageCollectedHeap.allocate ⟨[], []⟩ c3data).2.objs.length = 1
  ∧ ((GarbageCollectedHeap.allocate ⟨[], []⟩ c3data).2.getObj 0).data
      = [("inner", Value.object [])]
  ∧ (NaiveHeap.allocate ⟨[], []⟩ c3data).2.objs.length = 2
  ∧ ((NaiveHeap.allocate ⟨[], []⟩ c3data).2.getObj 1).data
      = [("inner", Value.objectReference 0)] :=
  ⟨rfl, rfl, rfl, rfl⟩

/-- C3 amended: the tracing heap's `allocate` appends exactly one slot
holding the supplied field mapping unchanged (`marked = false`, count 1)
and returns its handle; unlike the naive heap's `allocate`, it does not
promote nested inline records into their own slots, and it touches no
existing slot. -/
theorem gc_allocate_appends_unchanged (hs : HeapState) (data : List (String × Value)) :
    (GarbageCollectedHeap.allocate hs data).1 = hs.objs.length
  ∧ (GarbageCollectedHeap.allocate hs data).2.live = hs.live ++ [hs.objs.length]
  ∧ (GarbageCollectedHeap.allocate hs data).2.objs.length = hs.objs.length + 1
  ∧ (GarbageCollectedHeap.allocate hs data).2.getObj hs.objs.length
      = ⟨data, false, 1⟩
  ∧ (∀ q, q < hs.objs.length →
      (GarbageCollectedHeap.allocate hs data).2.getObj q = hs.getObj q) := by
  refine ⟨rfl, rfl, by simp [GarbageCollectedHeap.allocate, HeapState.push], ?_, ?_⟩
  · exact getD_append_length hs.objs _ _
  · intro q hq
    exact getD_append_lt hs.objs _ _ q hq

theorem gc_allocate_appends_unchanged_witness :
    (GarbageCollectedHeap.allocate ⟨[], []⟩ c3data).1 = 0
  ∧ (GarbageCollectedHeap.allocate ⟨[], []⟩ c3data).2.live = [] ++ [0]
  ∧ (GarbageCollectedHeap.allocate ⟨[], []⟩ c3data).2.objs.length = 0 + 1
  ∧ (GarbageCollectedHeap.allocate ⟨[], []⟩ c3data).2.getObj 0 = ⟨c3data, false, 1⟩
  ∧ (∀ q, q < (0 : Nat) →
      (GarbageCollectedHeap.allocate ⟨[], []⟩ c3data).2.getObj q = HeapState.getObj ⟨[], []⟩ q) :=
  gc_allocate_appends_unchanged ⟨[], []⟩ c3data

/-! ## C4 -/

/-- A heap whose single live slot holds a reference to itself. -/
def cyclicHeap : HeapState :=
  ⟨[⟨[("self", Value.objectReference 0)], false, 1⟩], [0]⟩

theorem traverse_self_loop_diverges :
    ∀ f (hs : HeapState), (hs.getObj 0).data = [("self", Value.objectReference 0)] →
      GarbageCollectedHeap.traverseF f hs 0 = none := by
  have key : ∀ f,
      (∀ hs : HeapState, (hs.getObj 0).data = [("self", Value.objectReference 0)] →
        GarbageCollectedHeap.traverseF f hs 0 = none)
    ∧ (∀ hs : HeapState, (hs.getObj 0).data = [("self", Value.objectReference 0)] →
        GarbageCollectedHeap.traverseValuesF f hs [("self", Value.objectReference 0)] = none) := by
    intro f
    induction f with
    | zero => exact ⟨fun _ _ => rfl, fun _ _ => rfl⟩
    | succ f ih =>
      constructor
      · intro hs hdata
        show GarbageCollectedHeap.traverseValuesF f (hs.setMarked 0 true)
            ((hs.setMarked 0 true).getObj 0).data = none
        have hdata' : ((hs.setMarked 0 true).getObj 0).data
            = [("self", Value.objectReference 0)] :=
          (getObj_setMarked hs 0 true 0).1.trans hdata
        rw [hdata']
        exact ih.2 _ hdata'
      · intro hs hdata
        rw [GarbageCollectedHeap.traverseValuesF, ih.1 hs hdata]
  exact fun f => (key f).1

/-- C4: the depth-first mark traversal of `collect` has no check of an
already-set `marked` flag, so on a cyclic object graph (here: a single
rooted slot whose field references itself) the traversal never
terminates — `manage` returns no result at any recursion budget. The
claim's required behaviour (skip slots whose `marked` is already set,
hence terminate) is what the spec prescribes; the code diverges (in
Rust, the recursive `borrow_mut` of the already mutably borrowed slot
panics). -/
theorem manage_diverges_on_cycle :
    ∀ f, GarbageCollectedHeap.manage f cyclicHeap [0] = none := by
  intro f
  unfold GarbageCollectedHeap.manage GarbageCollectedHeap.traverseRootsF
  rw [traverse_self_loop_diverges f cyclicHeap rfl]

end Slang

namespace Slang

/-! ## C5 -/

/-- The program `fu f(x) { return 1; } let r = f(undefinedVariable);`. -/
def argumentErrorProgram : List Statement :=
  [ .functionDefinition "f" ["x"]
      (.block [ .returnStatement (some (.literal (.integer 1))) ]),
    .variableDeclaration "r" (some (.call (.var "f") [.var "undefinedVariable"])) ]

/-- The state in which that program ends (under the naive heap; the
argument-dropping `filter_map` is strategy-independent). -/
def argumentErrorFinal : InterpState :=
  match run 30 argumentErrorProgram (initialState .naive) with
  | .ok _ st => st
  | .err _ st => st
  | .fuelOut => initialState .naive

/-- C5: evaluating the lone call argument `undefinedVariable` fails
with `UndefinedIdentifier`, yet the whole program runs to completion
with no error and `r = 1`: `evaluate_call`'s `filter_map` converts the
argument's evaluation error into an omitted argument instead of
propagating it (the source annotates this very line with
`TODO: why is this error being hidden?`). -/
theorem call_swallows_argument_error :
    Expression.evaluate 30 (.var "undefinedVariable") (initialState .naive)
      = .err (.UndefinedIdentifier "undefinedVariable") (initialState .naive)
  ∧ (match run 30 argumentErrorProgram (initialState .naive) with
      | .ok _ _ => true
      | _ => false) = true
  ∧ envGet argumentErrorFinal 0 "r" = .ok (Value.integer 1) :=
  ⟨rfl, rfl, rfl⟩

/-! ## C6 -/

/-- The program
`{ fu make() { let t = { v: 9 }; return t; } let r = make(); }` —
acyclic, and every binding that ever refers to the record is dropped
when the block exits. -/
def returnLeakProgram : List Statement :=
  [ .block
    [ .functionDefinition "make" []
        (.block [ .variableDeclaration "t" (some (.object [("v", .literal (.integer 9))])),
                  .returnStatement (some (.var "t")) ]),
      .variableDeclaration "r" (some (.call (.var "make") [])) ] ]

def returnLeakFinal : InterpState :=
  match run 30 returnLeakProgram (initialState .referenceCounted) with
  | .ok _ st => st
  | .err _ st => st
  | .fuelOut => initialState .referenceCounted

/-- C6: under the reference-counted strategy, after this acyclic
program has fully executed (no stack frame roots any object), the heap
still holds one live slot — the record returned out of `make` — with
reference count 1: the `Block` arm's increment protecting the in-flight
return value is never matched by a decrement once the value has been
stored at the call site, so allocate-then-drop-all-bindings does not
round-trip to the empty heap as the claim states. -/
theorem refcount_return_value_leaks :
    (match run 30 returnLeakProgram (initialState .referenceCounted) with
      | .ok _ _ => true
      | _ => false) = true
  ∧ returnLeakFinal.heap.objects_count = 1
  ∧ (returnLeakFinal.heap.getObj 0).reference_count = 1
  ∧ lookupField (returnLeakFinal.heap.getObj 0).data "v" = some (Value.integer 9)
  ∧ Stack.roots returnLeakFinal = [] :=
  ⟨rfl, rfl, rfl, rfl, rfl⟩

/-! ## C7 -/

/-- The program `let a = { n: 1 }; let b = a; a = 2;`. -/
def rebindingProgram : List Statement :=
  [ .variableDeclaration "a" (some (.object [("n", .literal (.integer 1))])),
    .variableDeclaration "b" (some (.var "a")),
    .expression (.assignment "a" (.literal (.integer 2))) ]

def rebindingFinal : InterpState :=
  match run 20 rebindingProgram (initialState .referenceCounted) with
  | .ok _ st => st
  | .err _ st => st
  | .fuelOut => initialState .referenceCounted

/-- C7: after `let a = { n: 1 }; let b = a; a = 2;` under the
reference-counted strategy, `b` still holds the heap record (handle 0)
whose field `n` equals 1, the assignment rebound `a` to the integer 2
without mutating the shared record, and the record's reference count is
exactly 1 (only `b` holds it). -/
theorem rebinding_preserves_shared_record :
    (match run 20 rebindingProgram (initialState .referenceCounted) with
      | .ok _ _ => true
      | _ => false) = true
  ∧ envGet rebindingFinal 0 "b" = .ok (Value.objectReference 0)
  ∧ lookupField (rebindingFinal.heap.getObj 0).data "n" = some (Value.integer 1)
  ∧ (rebindingFinal.heap.getObj 0).reference_count = 1
  ∧ envGet rebindingFinal 0 "a" = .ok (Value.integer 2) :=
  ⟨rfl, rfl, rfl, rfl, rfl⟩

/-! ## C8 -/

/-- Recognizer for the `NonBooleanControlFlowCondition` variant. -/
def isNonBooleanControlFlowCondition : EvaluationError → Bool
  | .NonBooleanControlFlowCondition _ _ => true
  | _ => false

/-- C8 counterexample: a ternary whose condition evaluates to the
integer 1 fails with the separate `NonBooleanTernaryCondition` error
variant, not with `NonBooleanControlFlowCondition` as the claim states
for all three positions. -/
theorem ternary_error_is_not_control_flow_variant :
    Expression.evaluate 5
      (.ternary (.literal (.integer 1)) (.literal (.integer 2)) (.literal (.integer 3)))
      (initialState .naive)
      = .err (.NonBooleanTernaryCondition .Integer) (initialState .naive)
  ∧ isNonBooleanControlFlowCondition (.NonBooleanTernaryCondition .Integer) = false :=
  ⟨rfl, rfl⟩

/-- C8 amended: a non-Boolean if-statement condition fails with
`NonBooleanControlFlowCondition` naming "if-statement", a non-Boolean
while-loop condition fails with `NonBooleanControlFlowCondition` naming
"while-loop", and a non-Boolean ternary condition fails with the
distinct `NonBooleanTernaryCondition` error (which identifies the
ternary construct by its own variant and carries the condition's
type). -/
theorem condition_type_errors (f : Nat) (st st1 st2 : InterpState) (c : Expression) (v : Value)
    (tBlk b : Statement) (eBlk : Option Statement) (l r : Expression)
    (hnb : v.slangType ≠ SlangType.Boolean) :
    (Expression.evaluateNotNothing f c (logStep st) = .ok v st1 →
      Statement.execute (f+1) (.ifStatement c tBlk eBlk) st
        = .err (.NonBooleanControlFlowCondition v.slangType "if-statement") st1)
  ∧ (Expression.evaluateNotNothing f c (logStep st) = .ok v st1 →
      Statement.execute (f+2) (.whileLoop c b) st
        = .err (.NonBooleanControlFlowCondition v.slangType "while-loop") st1)
  ∧ (Expression.evaluateNotNothing f c st = .ok v st2 →
      Expression.evaluate (f+1) (.ternary c l r) st
        = .err (.NonBooleanTernaryCondition v.slangType) st2) := by
  have hv : ∀ bv, v ≠ Value.boolean bv := by
    intro bv hb
    subst hb
    exact hnb rfl
  refine ⟨?_, ?_, ?_⟩
  · intro h
    cases v <;> first
      | exact absurd rfl (hv _)
      | simp [Statement.execute, h, Value.slangType]
  · intro h
    cases v <;> first
      | exact absurd rfl (hv _)
      | simp [Statement.execute, Statement.executeWhile, h, Value.slangType]
  · intro h
    cases v <;> first
      | exact absurd rfl (hv _)
      | simp [Expression.evaluate, evaluateTernary, h, Value.slangType]

theorem condition_type_errors_witness :
    Statement.execute 3
      (.ifStatement (.literal (.integer 1)) (.block []) none) (initialState .naive)
      = .err (.NonBooleanControlFlowCondition .Integer "if-statement")
          (logStep (initialState .naive))
  ∧ Statement.execute 4
      (.whileLoop (.literal (.integer 1)) (.block [])) (initialState .naive)
      = .err (.NonBooleanControlFlowCondition .Integer "while-loop")
          (logStep (initialState .naive))
  ∧ Expression.evaluate 3
      (.ternary (.literal (.integer 1)) (.literal (.integer 2)) (.literal (.integer 3)))
      (initialState .naive)
      = .err (.NonBooleanTernaryCondition .Integer) (initialState .naive) := by
  have h := condition_type_errors 2 (initialState .naive)
    (logStep (initialState .naive)) (initialState .naive)
    (.literal (.integer 1)) (.integer 1)
    (.block []) (.block []) none (.literal (.integer 2)) (.literal (.integer 3))
    (by decide)
  exact ⟨h.1 rfl, h.2.1 rfl, h.2.2 rfl⟩

end Slang

namespace Slang

/-! ## C9 -/

theorem scopeFind_insert_self (sc : List (String × Option Value)) (k : String) (v : Option Value) :
    scopeFind (scopeInsert sc k v) k = some v := by
  induction sc with
  | nil => simp [scopeInsert, scopeFind]
  | cons kv rest ih =>
    obtain ⟨k0, w⟩ := kv
    by_cases h : k0 = k
    · simp [scopeInsert, scopeFind, h]
    · simp [scopeInsert, scopeFind, h, ih]

theorem scopeFind_insert_ne (sc : List (String × Option Value)) (k k' : String)
    (v : Option Value) (h : k' ≠ k) :
    scopeFind (scopeInsert sc k v) k' = scopeFind sc k' := by
  have hk : ¬ k = k' := fun hc => h hc.symm
  induction sc with
  | nil => simp [scopeInsert, scopeFind, hk]
  | cons kv rest ih =>
    obtain ⟨k0, w⟩ := kv
    by_cases h0 : k0 = k
    · subst h0
      simp [scopeInsert, scopeFind, hk]
    · by_cases h1 : k0 = k'
      · subst h1
        simp [scopeInsert, scopeFind, h0, hk]
      · simp [scopeInsert, scopeFind, h0, h1, ih]

theorem getEnv_setEnv_self (st : InterpState) (h : Nat) (e : Environment)
    (hlen : h < st.envs.length) : (st.setEnv h e).getEnv h = e :=
  getD_set_self st.envs h e _ hlen

theorem getEnv_setEnv_ne (st : InterpState) (h q : Nat) (e : Environment) (hq : q ≠ h) :
    (st.setEnv h e).getEnv q = st.getEnv q :=
  getD_set_ne st.envs h q e _ (fun hc => hq hc.symm)

theorem setEnv_envs_length (st : InterpState) (h : Nat) (e : Environment) :
    (st.setEnv h e).envs.length = st.envs.length := by
  simp [InterpState.setEnv]

/-- The sampling step touches only the top environment's scope (at the
two diagnostic keys) and the log. -/
theorem logStep_components (st : InterpState) :
    (logStep st).heap = st.heap
  ∧ (logStep st).stack = st.stack
  ∧ (logStep st).kind = st.kind
  ∧ (logStep st).envs.length = st.envs.length
  ∧ (logStep st).log = st.log ++ [(st.heap.objects_count, st.stack.length)] := by
  refine ⟨rfl, rfl, rfl, ?_, rfl⟩
  simp [logStep, defineTop, envDefine, setEnv_envs_length]

theorem setEnv_stack (st : InterpState) (h : Nat) (e : Environment) :
    (st.setEnv h e).stack = st.stack := rfl

theorem topEnv_setEnv (st : InterpState) (h : Nat) (e : Environment) :
    Stack.topEnv (st.setEnv h e) = Stack.topEnv st := rfl

theorem getEnv_setEnv_out (st : InterpState) (h : Nat) (e : Environment)
    (hlen : ¬ h < st.envs.length) : (st.setEnv h e).envs = st.envs := by
  show st.envs.set h e = st.envs
  exact List.set_eq_of_length_le (by omega)

/-- Every environment keeps its parent, and its scope keeps every
binding other than the two diagnostic keys, across `logStep`. -/
theorem logStep_env_agrees (st : InterpState) (h : Nat) (identifier : String)
    (h1 : identifier ≠ "STACK_FRAMES_COUNT") (h2 : identifier ≠ "HEAP_OBJECTS_COUNT") :
    ((logStep st).getEnv h).parent = (st.getEnv h).parent
  ∧ scopeFind ((logStep st).getEnv h).scope identifier
      = scopeFind (st.getEnv h).scope identifier := by
  have hget : (logStep st).getEnv h
      = ((defineTop st "STACK_FRAMES_COUNT"
            (some (Value.integer (Int.ofNat (Stack.frames_count st))))).setEnv (Stack.topEnv st)
          ⟨((defineTop st "STACK_FRAMES_COUNT"
              (some (Value.integer (Int.ofNat (Stack.frames_count st))))).getEnv
              (Stack.topEnv st)).parent,
            scopeInsert ((defineTop st "STACK_FRAMES_COUNT"
              (some (Value.integer (Int.ofNat (Stack.frames_count st))))).getEnv
              (Stack.topEnv st)).scope "HEAP_OBJECTS_COUNT"
              (some (Value.integer (Int.ofNat (defineTop st "STACK_FRAMES_COUNT"
                (some (Value.integer (Int.ofNat (Stack.frames_count st))))).heap.objects_count)))⟩).getEnv h
      := rfl
  by_cases ht : h = Stack.topEnv st
  · subst ht
    by_cases hlen : Stack.topEnv st < st.envs.length
    · have hlen1 : Stack.topEnv st
          < (defineTop st "STACK_FRAMES_COUNT"
              (some (Value.integer (Int.ofNat (Stack.frames_count st))))).envs.length := by
        simpa [defineTop, envDefine, setEnv_envs_length] using hlen
      have hs1 : (defineTop st "STACK_FRAMES_COUNT"
          (some (Value.integer (Int.ofNat (Stack.frames_count st))))).getEnv (Stack.topEnv st)
          = ⟨(st.getEnv (Stack.topEnv st)).parent,
             scopeInsert (st.getEnv (Stack.topEnv st)).scope "STACK_FRAMES_COUNT"
               (some (Value.integer (Int.ofNat (Stack.frames_count st))))⟩ :=
        getEnv_setEnv_self st _ _ hlen
      rw [hget, getEnv_setEnv_self _ _ _ hlen1, hs1]
      refine ⟨rfl, ?_⟩
      show scopeFind (scopeInsert (scopeInsert (st.getEnv (Stack.topEnv st)).scope
        "STACK_FRAMES_COUNT" _) "HEAP_OBJECTS_COUNT" _) identifier = _
      rw [scopeFind_insert_ne _ _ _ _ h2, scopeFind_insert_ne _ _ _ _ h1]
    · have hnop1 : (defineTop st "STACK_FRAMES_COUNT"
          (some (Value.integer (Int.ofNat (Stack.frames_count st))))).envs = st.envs :=
        getEnv_setEnv_out st _ _ hlen
      have hnop2 : (logStep st).envs = st.envs := by
        show ((defineTop st "STACK_FRAMES_COUNT"
            (some (Value.integer (Int.ofNat (Stack.frames_count st))))).setEnv
            (Stack.topEnv st) _).envs = st.envs
        rw [getEnv_setEnv_out _ _ _ (by rw [hnop1]; exact hlen), hnop1]
      have : (logStep st).getEnv (Stack.topEnv st) = st.getEnv (Stack.topEnv st) := by
        unfold InterpState.getEnv
        rw [hnop2]
      exact ⟨by rw [this], by rw [this]⟩
  · have : (logStep st).getEnv h = st.getEnv h := by
      rw [hget, getEnv_setEnv_ne _ _ _ _ ht]
      show ((st.setEnv (Stack.topEnv st) _).getEnv h) = _
      rw [getEnv_setEnv_ne _ _ _ _ ht]
    exact ⟨by rw [this], by rw [this]⟩

/-- `envGetF` only looks at parents and at the scope entries for the
requested identifier. -/
theorem envGetF_congr (st st' : InterpState) (identifier : String)
    (hagree : ∀ h, (st'.getEnv h).parent = (st.getEnv h).parent
      ∧ scopeFind ((st'.getEnv h).scope) identifier = scopeFind ((st.getEnv h).scope) identifier) :
    ∀ f h, envGetF f st' h identifier = envGetF f st h identifier := by
  intro f
  induction f with
  | zero => intro h; rfl
  | succ f ih =>
    intro h
    simp only [envGetF]
    rw [(hagree h).2, (hagree h).1]
    cases scopeFind (st.getEnv h).scope identifier with
    | some v =>
      cases v with
      | some value => rfl
      | none => rfl
    | none =>
      cases (st.getEnv h).parent with
      | some parent => exact ih parent
      | none => rfl

/-- The state after executing an expression statement holding a plain
literal: exactly the sampling step's state. -/
def sampledState (st : InterpState) : InterpState := logStep st

/-- C9 counterexample: in the initial state the global scope has no
binding `STACK_FRAMES_COUNT`; executing the trivial statement `1;`
leaves one, holding the integer 1, and a program can read it
(`envGet` succeeds) — so statement execution does add program-visible
bindings to an environment scope. -/
theorem sampling_adds_visible_bindings :
    scopeFind ((initialState .naive).getEnv 0).scope "STACK_FRAMES_COUNT" = none
  ∧ (match Statement.execute 5 (.expression (.literal (.integer 1))) (initialState .naive) with
      | .ok _ st => scopeFind (st.getEnv 0).scope "STACK_FRAMES_COUNT"
      | _ => none) = some (some (Value.integer 1))
  ∧ (match Statement.execute 5 (.expression (.literal (.integer 1))) (initialState .naive) with
      | .ok _ st => (envGet st 0 "STACK_FRAMES_COUNT" = .ok (Value.integer 1))
                  ∧ (envGet st 0 "HEAP_OBJECTS_COUNT" = .ok (Value.integer 0))
      | _ => False) := by
  exact ⟨rfl, rfl, rfl, rfl⟩

/-- The top scope after the sampling step: the original scope with the
two diagnostic bindings inserted. -/
theorem logStep_top_scope (st : InterpState) (hvalid : Stack.topEnv st < st.envs.length) :
    (logStep st).getEnv (Stack.topEnv st)
      = ⟨(st.getEnv (Stack.topEnv st)).parent,
          scopeInsert
            (scopeInsert (st.getEnv (Stack.topEnv st)).scope "STACK_FRAMES_COUNT"
              (some (Value.integer (Int.ofNat (Stack.frames_count st)))))
            "HEAP_OBJECTS_COUNT"
            (some (Value.integer (Int.ofNat st.heap.objects_count)))⟩ := by
  have hget : (logStep st).getEnv (Stack.topEnv st)
      = ((defineTop st "STACK_FRAMES_COUNT"
            (some (Value.integer (Int.ofNat (Stack.frames_count st))))).setEnv (Stack.topEnv st)
          ⟨((defineTop st "STACK_FRAMES_COUNT"
              (some (Value.integer (Int.ofNat (Stack.frames_count st))))).getEnv
              (Stack.topEnv st)).parent,
            scopeInsert ((defineTop st "STACK_FRAMES_COUNT"
              (some (Value.integer (Int.ofNat (Stack.frames_count st))))).getEnv
              (Stack.topEnv st)).scope "HEAP_OBJECTS_COUNT"
              (some (Value.integer (Int.ofNat st.heap.objects_count)))⟩).getEnv
          (Stack.topEnv st) := rfl
  have hlen1 : Stack.topEnv st
      < (defineTop st "STACK_FRAMES_COUNT"
          (some (Value.integer (Int.ofNat (Stack.frames_count st))))).envs.length := by
    simpa [defineTop, envDefine, setEnv_envs_length] using hvalid
  have hs1 : (defineTop st "STACK_FRAMES_COUNT"
      (some (Value.integer (Int.ofNat (Stack.frames_count st))))).getEnv (Stack.topEnv st)
      = ⟨(st.getEnv (Stack.topEnv st)).parent,
          scopeInsert (st.getEnv (Stack.topEnv st)).scope "STACK_FRAMES_COUNT"
            (some (Value.integer (Int.ofNat (Stack.frames_count st))))⟩ :=
    getEnv_setEnv_self st _ _ hvalid
  rw [hget, getEnv_setEnv_self _ _ _ hlen1, hs1]

/-- C9 amended: executing a statement (here: any expression statement
holding a literal) performs exactly the sampling step before the
statement proper: it appends one `(heap objects count, stack frames
count)` entry to the log — which no evaluator operation ever reads —
and defines/overwrites the two diagnostic bindings
`STACK_FRAMES_COUNT` and `HEAP_OBJECTS_COUNT` in the innermost scope,
which ARE program-visible; the heap, the stack, the strategy and every
binding under any other identifier are untouched. -/
theorem sampling_effects_exactly (f : Nat) (st : InterpState) (v : Value) (identifier : String)
    (h1 : identifier ≠ "STACK_FRAMES_COUNT") (h2 : identifier ≠ "HEAP_OBJECTS_COUNT")
    (hvalid : Stack.topEnv st < st.envs.length) :
    Statement.execute (f+2) (.expression (.literal v)) st
      = .ok ControlFlow.Continue (logStep st)
  ∧ (logStep st).heap = st.heap
  ∧ (logStep st).stack = st.stack
  ∧ (logStep st).kind = st.kind
  ∧ (logStep st).log = st.log ++ [(st.heap.objects_count, st.stack.length)]
  ∧ scopeFind ((logStep st).getEnv (Stack.topEnv st)).scope "STACK_FRAMES_COUNT"
      = some (some (Value.integer (Int.ofNat st.stack.length)))
  ∧ scopeFind ((logStep st).getEnv (Stack.topEnv st)).scope "HEAP_OBJECTS_COUNT"
      = some (some (Value.integer (Int.ofNat st.heap.objects_count)))
  ∧ (∀ h, envGet (logStep st) h identifier = envGet st h identifier) := by
  have hcomp := logStep_components st
  refine ⟨?_, hcomp.1, hcomp.2.1, hcomp.2.2.1, hcomp.2.2.2.2, ?_, ?_, ?_⟩
  · simp [Statement.execute, Expression.evaluate]
  · rw [logStep_top_scope st hvalid]
    show scopeFind (scopeInsert _ "HEAP_OBJECTS_COUNT" _) "STACK_FRAMES_COUNT" = _
    rw [scopeFind_insert_ne _ _ _ _ (by decide), scopeFind_insert_self]
    rfl
  · rw [logStep_top_scope st hvalid]
    show scopeFind (scopeInsert _ "HEAP_OBJECTS_COUNT" _) "HEAP_OBJECTS_COUNT" = _
    rw [scopeFind_insert_self]
  · intro h
    have hlen : (logStep st).envs.length = st.envs.length := hcomp.2.2.2.1
    show envGetF ((logStep st).envs.length + 1) (logStep st) h identifier
        = envGetF (st.envs.length + 1) st h identifier
    rw [hlen]
    exact envGetF_congr st (logStep st) identifier
      (fun h' => logStep_env_agrees st h' identifier h1 h2) _ h

theorem sampling_effects_exactly_witness :
    Statement.execute 2 (.expression (.literal (Value.integer 7))) (initialState .naive)
      = .ok ControlFlow.Continue (logStep (initialState .naive))
  ∧ (logStep (initialState .naive)).heap = (initialState .naive).heap
  ∧ (logStep (initialState .naive)).stack = (initialState .naive).stack
  ∧ (logStep (initialState .naive)).kind = (initialState .naive).kind
  ∧ (logStep (initialState .naive)).log = (initialState .naive).log
      ++ [((initialState .naive).heap.objects_count, (initialState .naive).stack.length)]
  ∧ scopeFind ((logStep (initialState .naive)).getEnv
        (Stack.topEnv (initialState .naive))).scope "STACK_FRAMES_COUNT"
      = some (some (Value.integer (Int.ofNat (initialState .naive).stack.length)))
  ∧ scopeFind ((logStep (initialState .naive)).getEnv
        (Stack.topEnv (initialState .naive))).scope "HEAP_OBJECTS_COUNT"
      = some (some (Value.integer (Int.ofNat (initialState .naive).heap.objects_count)))
  ∧ (∀ h, envGet (logStep (initialState .naive)) h "x"
      = envGet (initialState .naive) h "x") :=
  sampling_effects_exactly 0 (initialState .naive) (Value.integer 7) "x"
    (by decide) (by decide) (by decide)

end Slang

namespace Slang

/-! ## C10 -/

theorem filter_idem {α : Type} (p : α → Bool) (l : List α) :
    (l.filter p).filter p = l.filter p := by
  induction l with
  | nil => rfl
  | cons a rest ih =>
    by_cases h : p a = true
    · simp [List.filter_cons, h, ih]
    · simp [List.filter_cons, h, ih]

theorem filter_neg_filter {α : Type} (p : α → Bool) (l : List α) :
    (l.filter (fun a => !(p a))).filter p = [] := by
  induction l with
  | nil => rfl
  | cons a rest ih =>
    by_cases h : p a = true
    · simp [List.filter_cons, h, ih]
    · simp [List.filter_cons, h, ih]

theorem filter_pos_neg {α : Type} (p : α → Bool) (l : List α) :
    (l.filter p).filter (fun a => !(p a)) = [] := by
  induction l with
  | nil => rfl
  | cons a rest ih =>
    by_cases h : p a = true
    · simp [List.filter_cons, h, ih]
    · simp [List.filter_cons, h, ih]

/-- The definition-executing pass only looks at the function
definitions of its list. -/
theorem executeDefinitionsAux_filter (ex : Statement → InterpState → Res ControlFlow) :
    ∀ (ss : List Statement) (st : InterpState),
      executeDefinitionsAux ex ss st
        = executeDefinitionsAux ex (ss.filter isFunctionDefinition) st := by
  intro ss
  induction ss with
  | nil => intro st; rfl
  | cons s rest ih =>
    intro st
    cases hd : isFunctionDefinition s with
    | true =>
      rw [List.filter_cons_of_pos hd]
      simp only [executeDefinitionsAux, hd, if_true]
      cases ex s st with
      | ok a st1 => exact ih st1
      | err e s1 => rfl
      | fuelOut => rfl
    | false =>
      rw [List.filter_cons_of_neg (by simp [hd])]
      simp only [executeDefinitionsAux, hd, Bool.false_eq_true, if_false]
      exact ih st

/-- The non-definition pass only looks at the non-definitions of its
list. -/
theorem executeNonDefinitionsAux_filter (ex : Statement → InterpState → Res ControlFlow) :
    ∀ (ss : List Statement) (st : InterpState),
      executeNonDefinitionsAux ex ss st
        = executeNonDefinitionsAux ex (ss.filter (fun s => !(isFunctionDefinition s))) st := by
  intro ss
  induction ss with
  | nil => intro st; rfl
  | cons s rest ih =>
    intro st
    cases hd : isFunctionDefinition s with
    | true =>
      rw [List.filter_cons_of_neg (by simp [hd])]
      simp only [executeNonDefinitionsAux, hd, if_true]
      exact ih st
    | false =>
      rw [List.filter_cons_of_pos (by simp [hd])]
      simp only [executeNonDefinitionsAux, hd, Bool.false_eq_true, if_false]
      cases ex s st with
      | ok c st1 =>
        cases c with
        | Break value => rfl
        | Continue => exact ih st1
      | err e s1 => rfl
      | fuelOut => rfl

theorem executeDefinitionsAux_congr (ex : Statement → InterpState → Res ControlFlow)
    (A B : List Statement)
    (h : A.filter isFunctionDefinition = B.filter isFunctionDefinition) (st : InterpState) :
    executeDefinitionsAux ex A st = executeDefinitionsAux ex B st := by
  rw [executeDefinitionsAux_filter ex A, h, ← executeDefinitionsAux_filter ex B]

theorem executeNonDefinitionsAux_congr (ex : Statement → InterpState → Res ControlFlow)
    (A B : List Statement)
    (h : A.filter (fun s => !(isFunctionDefinition s))
      = B.filter (fun s => !(isFunctionDefinition s))) (st : InterpState) :
    executeNonDefinitionsAux ex A st = executeNonDefinitionsAux ex B st := by
  rw [executeNonDefinitionsAux_filter ex A, h, ← executeNonDefinitionsAux_filter ex B]

/-- C10: in every `Block` statement — and likewise for a top-level
statement sequence handed to `run` — execution is identical to
executing the reordered sequence in which all `FunctionDefinition`
statements come first (in their textual order) followed by the
non-definition statements in their textual order; hence every function
definition takes effect before any non-definition statement runs, so a
call may textually precede the definition it invokes, and the relative
order of the non-definitions is preserved. -/
theorem function_definitions_hoisted (f : Nat) (ss : List Statement) (st : InterpState) :
    Statement.execute f (.block ss) st
      = Statement.execute f
          (.block (ss.filter isFunctionDefinition
            ++ ss.filter (fun s => !(isFunctionDefinition s)))) st
  ∧ run f ss st
      = run f (ss.filter isFunctionDefinition
            ++ ss.filter (fun s => !(isFunctionDefinition s))) st := by
  have hdefs : (ss.filter isFunctionDefinition
      ++ ss.filter (fun s => !(isFunctionDefinition s))).filter isFunctionDefinition
      = ss.filter isFunctionDefinition := by
    rw [List.filter_append, filter_idem, filter_neg_filter, List.append_nil]
  have hnon : (ss.filter isFunctionDefinition
      ++ ss.filter (fun s => !(isFunctionDefinition s))).filter
        (fun s => !(isFunctionDefinition s))
      = ss.filter (fun s => !(isFunctionDefinition s)) := by
    rw [List.filter_append, filter_pos_neg, filter_idem, List.nil_append]
  constructor
  · cases f with
    | zero => rfl
    | succ g =>
      have e1 : ∀ s', executeDefinitionsAux (fun s2 s3 => Statement.execute g s2 s3) ss s'
          = executeDefinitionsAux (fun s2 s3 => Statement.execute g s2 s3)
              (ss.filter isFunctionDefinition
                ++ ss.filter (fun s => !(isFunctionDefinition s))) s' :=
        fun s' => executeDefinitionsAux_congr _ ss _ hdefs.symm s'
      have e2 : ∀ s', executeNonDefinitionsAux (fun s2 s3 => Statement.execute g s2 s3) ss s'
          = executeNonDefinitionsAux (fun s2 s3 => Statement.execute g s2 s3)
              (ss.filter isFunctionDefinition
                ++ ss.filter (fun s => !(isFunctionDefinition s))) s' :=
        fun s' => executeNonDefinitionsAux_congr _ ss _ hnon.symm s'
      show Statement.execute (g+1) (.block ss) st = _
      simp only [Statement.execute]
      simp only [e1, e2]
  · have e1 : ∀ s', executeDefinitionsAux (fun s2 s3 => Statement.execute f s2 s3) ss s'
        = executeDefinitionsAux (fun s2 s3 => Statement.execute f s2 s3)
            (ss.filter isFunctionDefinition
              ++ ss.filter (fun s => !(isFunctionDefinition s))) s' :=
      fun s' => executeDefinitionsAux_congr _ ss _ hdefs.symm s'
    have e2 : ∀ s', executeNonDefinitionsAux (fun s2 s3 => Statement.execute f s2 s3) ss s'
        = executeNonDefinitionsAux (fun s2 s3 => Statement.execute f s2 s3)
            (ss.filter isFunctionDefinition
              ++ ss.filter (fun s => !(isFunctionDefinition s))) s' :=
      fun s' => executeNonDefinitionsAux_congr _ ss _ hnon.symm s'
    show run f ss st = _
    simp only [run]
    simp only [e1, e2]

end Slang

namespace Slang

/-! ## C1: mark-and-sweep correctness -/

/-- One pointer edge in the heap's object graph: some field of slot `p`
holds a reference to slot `q`. -/
def Edge (hs : HeapState) (p q : Nat) : Prop :=
  ∃ k, (k, Value.objectReference q) ∈ (hs.getObj p).data

/-- Reachability along pointer-field chains of any length (including
zero). -/
inductive Reaches (hs : HeapState) : Nat → Nat → Prop where
  | refl (p : Nat) : Reaches hs p p
  | step {p q r : Nat} : Edge hs p q → Reaches hs q r → Reaches hs p r

/-- Reachability from some member of the supplied root list. -/
def ReachesFromRoots (hs : HeapState) (roots : List Nat) (h : Nat) : Prop :=
  ∃ rt ∈ roots, Reaches hs rt h

/-- A reference held in the given field list. -/
def fieldRef (l : List (String × Value)) (r : Nat) : Prop :=
  ∃ k, (k, Value.objectReference r) ∈ l

/-- What one or more marking steps may do to the state: the strategy's
vector, the arena size and every slot's fields are untouched, and marks
only ever go from unset to set. -/
def MarkStep (hs hs' : HeapState) : Prop :=
  hs'.live = hs.live
  ∧ hs'.objs.length = hs.objs.length
  ∧ (∀ q, (hs'.getObj q).data = (hs.getObj q).data)
  ∧ (∀ q, (hs.getObj q).marked = true → (hs'.getObj q).marked = true)

theorem MarkStep.refl (hs : HeapState) : MarkStep hs hs :=
  ⟨rfl, rfl, fun _ => rfl, fun _ h => h⟩

theorem MarkStep.trans {h1 h2 h3 : HeapState} (a : MarkStep h1 h2) (b : MarkStep h2 h3) :
    MarkStep h1 h3 :=
  ⟨b.1.trans a.1, b.2.1.trans a.2.1,
    fun q => (b.2.2.1 q).trans (a.2.2.1 q),
    fun q h => b.2.2.2 q (a.2.2.2 q h)⟩

theorem setMarked_marked_self (hs : HeapState) (p : Nat) (b : Bool)
    (h : p < hs.objs.length) : ((hs.setMarked p b).getObj p).marked = b := by
  rw [HeapState.setMarked, getObj_setObj_self _ _ _ h]

theorem markStep_setMarked_true (hs : HeapState) (p : Nat) :
    MarkStep hs (hs.setMarked p true) := by
  refine ⟨rfl, setMarked_length hs p true, fun q => (getObj_setMarked hs p true q).1, ?_⟩
  intro q hq
  by_cases hqp : q = p
  · subst hqp
    by_cases hlen : q < hs.objs.length
    · rw [setMarked_marked_self hs q true hlen]
    · rw [HeapState.setMarked]
      unfold HeapState.setObj HeapState.getObj
      rw [List.set_eq_of_length_le (by omega)]
      exact hq
  · rw [(getObj_setMarked hs p true q).2.2 hqp]
    exact hq

theorem Edge_congr {hs hs' : HeapState}
    (hdata : ∀ x, (hs'.getObj x).data = (hs.getObj x).data) {p q : Nat} :
    Edge hs p q → Edge hs' p q := by
  intro he
  obtain ⟨k, hk⟩ := he
  exact ⟨k, by rw [hdata]; exact hk⟩

theorem Reaches_congr {hs hs' : HeapState}
    (hdata : ∀ x, (hs'.getObj x).data = (hs.getObj x).data) {a b : Nat} :
    Reaches hs a b → Reaches hs' a b := by
  intro hr
  induction hr with
  | refl p => exact Reaches.refl p
  | step he _ ih => exact Reaches.step (Edge_congr hdata he) ih

/-- Specification of one `traverse` call at a given fuel. -/
def TraverseSpec (f : Nat) : Prop :=
  ∀ hs p hs', GarbageCollectedHeap.traverseF f hs p = some hs' →
      MarkStep hs hs'
    ∧ (∀ q, (hs'.getObj q).marked = true →
        (hs.getObj q).marked = true ∨ Reaches hs p q)
    ∧ (∀ q, Reaches hs p q → q < hs.objs.length → (hs'.getObj q).marked = true)

/-- Specification of the field loop of `traverse` at a given fuel. -/
def TraverseValuesSpec (f : Nat) : Prop :=
  ∀ hs l hs', GarbageCollectedHeap.traverseValuesF f hs l = some hs' →
      MarkStep hs hs'
    ∧ (∀ q, (hs'.getObj q).marked = true →
        (hs.getObj q).marked = true ∨ ∃ r, fieldRef l r ∧ Reaches hs r q)
    ∧ (∀ r q, fieldRef l r → Reaches hs r q → q < hs.objs.length →
        (hs'.getObj q).marked = true)

/-- The pass-through step of the field loop (a non-reference field). -/
theorem traverseValues_pass (f : Nat) (hs : HeapState) (k : String) (v : Value)
    (rest : List (String × Value)) (hs' : HeapState)
    (hv : ∀ p, v ≠ Value.objectReference p)
    (hrun : GarbageCollectedHeap.traverseValuesF f hs rest = some hs')
    (IH : TraverseValuesSpec f) :
      MarkStep hs hs'
    ∧ (∀ q, (hs'.getObj q).marked = true →
        (hs.getObj q).marked = true ∨ ∃ r, fieldRef ((k, v) :: rest) r ∧ Reaches hs r q)
    ∧ (∀ r q, fieldRef ((k, v) :: rest) r → Reaches hs r q → q < hs.objs.length →
        (hs'.getObj q).marked = true) := by
  obtain ⟨hms, hsound, hcomp⟩ := IH hs rest hs' hrun
  refine ⟨hms, ?_, ?_⟩
  · intro q hq
    rcases hsound q hq with hold | ⟨r, hf, hr⟩
    · exact Or.inl hold
    · obtain ⟨k', hk'⟩ := hf
      exact Or.inr ⟨r, ⟨k', List.mem_cons_of_mem _ hk'⟩, hr⟩
  · intro r q hf hr hlt
    obtain ⟨k', hmem⟩ := hf
    rcases List.mem_cons.mp hmem with heq | hmem'
    · have h2 := congrArg Prod.snd heq
      exact absurd h2.symm (hv r)
    · exact hcomp r q ⟨k', hmem'⟩ hr hlt

theorem traverse_spec_all : ∀ f, TraverseSpec f ∧ TraverseValuesSpec f := by
  intro f
  induction f with
  | zero =>
    constructor
    · intro hs p hs' hrun
      exact absurd hrun (by simp [GarbageCollectedHeap.traverseF])
    · intro hs l hs' hrun
      exact absurd hrun (by simp [GarbageCollectedHeap.traverseValuesF])
  | succ f ih =>
    constructor
    · -- `traverse`: mark the root, then walk its fields
      intro hs p hs' hrun
      have hrun' : GarbageCollectedHeap.traverseValuesF f (hs.setMarked p true)
          ((hs.setMarked p true).getObj p).data = some hs' := hrun
      obtain ⟨hms1, hsound1, hcomp1⟩ :=
        ih.2 (hs.setMarked p true) ((hs.setMarked p true).getObj p).data hs' hrun'
      have hmsA : MarkStep hs (hs.setMarked p true) := markStep_setMarked_true hs p
      have hdataA : ∀ x, ((hs.setMarked p true).getObj x).data = (hs.getObj x).data :=
        fun x => (getObj_setMarked hs p true x).1
      have hdatap : ((hs.setMarked p true).getObj p).data = (hs.getObj p).data := hdataA p
      refine ⟨hmsA.trans hms1, ?_, ?_⟩
      · intro q hq
        rcases hsound1 q hq with hold | ⟨r, hf, hr⟩
        · by_cases hqp : q = p
          · subst hqp
            exact Or.inr (Reaches.refl q)
          · rw [(getObj_setMarked hs p true q).2.2 hqp] at hold
            exact Or.inl hold
        · rw [hdatap] at hf
          have hedge : Edge hs p r := hf
          have hr' : Reaches hs r q := Reaches_congr (fun x => (hdataA x).symm) hr
          exact Or.inr (Reaches.step hedge hr')
      · intro q hreach hlt
        cases hreach with
        | refl =>
          have hm : ((hs.setMarked p true).getObj p).marked = true :=
            setMarked_marked_self hs p true hlt
          exact hms1.2.2.2 p hm
        | step he hr =>
          rename_i m
          have hf : fieldRef ((hs.setMarked p true).getObj p).data m := by
            rw [hdatap]
            exact he
          have hr' : Reaches (hs.setMarked p true) m q :=
            Reaches_congr hdataA hr
          exact hcomp1 m q hf hr' (by rw [setMarked_length]; exact hlt)
    · -- the field loop
      intro hs l hs' hrun
      match l with
      | [] =>
        have heq : hs = hs' := Option.some.inj hrun
        subst heq
        refine ⟨MarkStep.refl _, fun q hq => Or.inl hq, ?_⟩
        intro r q hf _ _
        obtain ⟨k, hk⟩ := hf
        exact absurd hk (List.not_mem_nil _)
      | (k, Value.objectReference q0) :: rest =>
        have hrun' : (match GarbageCollectedHeap.traverseF f hs q0 with
          | some hs1 => GarbageCollectedHeap.traverseValuesF f hs1 rest
          | none => none) = some hs' := hrun
        cases hm : GarbageCollectedHeap.traverseF f hs q0 with
        | none => rw [hm] at hrun'; exact absurd hrun' (by simp)
        | some hsm =>
          rw [hm] at hrun'
          obtain ⟨hmsT, hsoundT, hcompT⟩ := ih.1 hs q0 hsm hm
          obtain ⟨hmsV, hsoundV, hcompV⟩ := ih.2 hsm rest hs' hrun'
          have hdataT : ∀ x, (hsm.getObj x).data = (hs.getObj x).data := hmsT.2.2.1
          refine ⟨hmsT.trans hmsV, ?_, ?_⟩
          · intro q hq
            rcases hsoundV q hq with hmid | ⟨r, hf, hr⟩
            · rcases hsoundT q hmid with hold | hreach
              · exact Or.inl hold
              · exact Or.inr ⟨q0, ⟨k, List.mem_cons_self _ _⟩, hreach⟩
            · obtain ⟨k', hk'⟩ := hf
              exact Or.inr ⟨r, ⟨k', List.mem_cons_of_mem _ hk'⟩,
                Reaches_congr (fun x => (hdataT x).symm) hr⟩
          · intro r q hf hr hlt
            obtain ⟨k', hmem⟩ := hf
            rcases List.mem_cons.mp hmem with heq | hmem'
            · have h2 := congrArg Prod.snd heq
              have hrq : r = q0 := by
                injection h2
              subst hrq
              have hmarked : (hsm.getObj q).marked = true := hcompT q hr hlt
              exact hmsV.2.2.2 q hmarked
            · have hr' : Reaches hsm r q := Reaches_congr hdataT hr
              exact hcompV r q ⟨k', hmem'⟩ hr' (by rw [hmsT.2.1]; exact hlt)
      | (k, Value.string a) :: rest =>
        exact traverseValues_pass f hs k _ rest hs' (fun p hc => Value.noConfusion hc) hrun ih.2
      | (k, Value.float a) :: rest =>
        exact traverseValues_pass f hs k _ rest hs' (fun p hc => Value.noConfusion hc) hrun ih.2
      | (k, Value.integer a) :: rest =>
        exact traverseValues_pass f hs k _ rest hs' (fun p hc => Value.noConfusion hc) hrun ih.2
      | (k, Value.boolean a) :: rest =>
        exact traverseValues_pass f hs k _ rest hs' (fun p hc => Value.noConfusion hc) hrun ih.2
      | (k, Value.function a) :: rest =>
        exact traverseValues_pass f hs k _ rest hs' (fun p hc => Value.noConfusion hc) hrun ih.2
      | (k, Value.object a) :: rest =>
        exact traverseValues_pass f hs k _ rest hs' (fun p hc => Value.noConfusion hc) hrun ih.2

end Slang

namespace Slang

/-- The `for root in roots` loop marks exactly what is reachable from
the processed roots (beyond what was already marked). -/
theorem traverseRoots_spec (f : Nat) :
    ∀ (roots : List Nat) (hs hs' : HeapState),
      GarbageCollectedHeap.traverseRootsF f hs roots = some hs' →
        MarkStep hs hs'
      ∧ (∀ q, (hs'.getObj q).marked = true →
          (hs.getObj q).marked = true ∨ ReachesFromRoots hs roots q)
      ∧ (∀ rt q, rt ∈ roots → Reaches hs rt q → q < hs.objs.length →
          (hs'.getObj q).marked = true) := by
  intro roots
  induction roots with
  | nil =>
    intro hs hs' hrun
    have heq : hs = hs' := Option.some.inj hrun
    subst heq
    refine ⟨MarkStep.refl _, fun q hq => Or.inl hq, ?_⟩
    intro rt q hrt
    exact absurd hrt (List.not_mem_nil _)
  | cons rt rest ih =>
    intro hs hs' hrun
    have hrun' : (match GarbageCollectedHeap.traverseF f hs rt with
      | some hs1 => GarbageCollectedHeap.traverseRootsF f hs1 rest
      | none => none) = some hs' := hrun
    cases hm : GarbageCollectedHeap.traverseF f hs rt with
    | none => rw [hm] at hrun'; exact absurd hrun' (by simp)
    | some hsm =>
      rw [hm] at hrun'
      obtain ⟨hmsT, hsoundT, hcompT⟩ := (traverse_spec_all f).1 hs rt hsm hm
      obtain ⟨hmsR, hsoundR, hcompR⟩ := ih hsm hs' hrun'
      have hdataT : ∀ x, (hsm.getObj x).data = (hs.getObj x).data := hmsT.2.2.1
      refine ⟨hmsT.trans hmsR, ?_, ?_⟩
      · intro q hq
        rcases hsoundR q hq with hmid | ⟨rt', hmem, hr⟩
        · rcases hsoundT q hmid with hold | hreach
          · exact Or.inl hold
          · exact Or.inr ⟨rt, List.mem_cons_self _ _, hreach⟩
        · exact Or.inr ⟨rt', List.mem_cons_of_mem _ hmem,
            Reaches_congr (fun x => (hdataT x).symm) hr⟩
      · intro rt' q hmem hr hlt
        rcases List.mem_cons.mp hmem with heq | hmem'
        · subst heq
          have hmark := hcompT q hr hlt
          exact hmsR.2.2.2 q hmark
        · have hr' : Reaches hsm rt' q := Reaches_congr hdataT hr
          exact hcompR rt' q hmem' hr' (by rw [hmsT.2.1]; exact hlt)

theorem unmarkAll_live : ∀ (l : List Nat) (hs : HeapState),
    (GarbageCollectedHeap.unmarkAll hs l).live = hs.live := by
  intro l
  induction l with
  | nil => intro hs; rfl
  | cons p rest ih =>
    intro hs
    show (GarbageCollectedHeap.unmarkAll (hs.setMarked p false) rest).live = hs.live
    rw [ih, setMarked_live]

theorem unmarkAll_data : ∀ (l : List Nat) (hs : HeapState) (q : Nat),
    ((GarbageCollectedHeap.unmarkAll hs l).getObj q).data = (hs.getObj q).data := by
  intro l
  induction l with
  | nil => intro hs q; rfl
  | cons p rest ih =>
    intro hs q
    show ((GarbageCollectedHeap.unmarkAll (hs.setMarked p false) rest).getObj q).data
        = (hs.getObj q).data
    rw [ih, (getObj_setMarked hs p false q).1]

/-- C1: whenever `collect` (the tracing `manage`) completes — its
depth-first mark phase is fuel-indexed here because the source recursion
is unbounded (see the C4 result for the cyclic case) — starting from a
heap whose slots are all unmarked (the invariant `allocate` and
`manage` maintain) and whose vector holds valid handles, the surviving
vector contains exactly those previously live slots that are reachable
from some supplied root via a chain of object references of any length
(including zero: roots themselves survive); every slot not so reachable
is removed, no slot is added, and no slot's fields change. In
particular a slot reachable only through a field of a rooted slot
survives, and a slot with no reference chain from any root is
removed. -/
theorem collect_retains_exactly_reachable (f : Nat) (roots : List Nat) (hs hs' : HeapState)
    (hterm : GarbageCollectedHeap.manage f hs roots = some hs')
    (hunmarked : ∀ q, (hs.getObj q).marked = false)
    (hvalid : ∀ h, h ∈ hs.live → h < hs.objs.length) :
    (∀ h, h ∈ hs'.live → h ∈ hs.live)
  ∧ (∀ q, (hs'.getObj q).data = (hs.getObj q).data)
  ∧ (∀ h, h ∈ hs.live → (h ∈ hs'.live ↔ ReachesFromRoots hs roots h)) := by
  unfold GarbageCollectedHeap.manage at hterm
  cases htr : GarbageCollectedHeap.traverseRootsF f hs roots with
  | none => rw [htr] at hterm; exact absurd hterm (by simp)
  | some hs1 =>
    rw [htr] at hterm
    have hs'eq : hs' = GarbageCollectedHeap.unmarkAll
        ⟨hs1.objs, hs1.live.filter (fun p => (hs1.getObj p).marked)⟩
        (hs1.live.filter (fun p => (hs1.getObj p).marked)) :=
      (Option.some.inj hterm).symm
    obtain ⟨hmsR, hsoundR, hcompR⟩ := traverseRoots_spec f roots hs hs1 htr
    have hlive1 : hs1.live = hs.live := hmsR.1
    have hlive : hs'.live = hs.live.filter (fun p => (hs1.getObj p).marked) := by
      rw [hs'eq, unmarkAll_live]
      show hs1.live.filter _ = _
      rw [hlive1]
    refine ⟨?_, ?_, ?_⟩
    · intro h hh
      rw [hlive] at hh
      exact List.mem_of_mem_filter hh
    · intro q
      rw [hs'eq, unmarkAll_data]
      show (hs1.getObj q).data = _
      exact hmsR.2.2.1 q
    · intro h hmem
      rw [hlive]
      constructor
      · intro hin
        have hmark : (hs1.getObj h).marked = true := by
          have := List.of_mem_filter hin
          simpa using this
        rcases hsoundR h hmark with hold | hroots
        · rw [hunmarked h] at hold
          exact absurd hold (by simp)
        · exact hroots
      · intro hroots
        obtain ⟨rt, hrt, hreach⟩ := hroots
        have hmark := hcompR rt h hrt hreach (hvalid h hmem)
        exact List.mem_filter.mpr ⟨hmem, by simpa using hmark⟩

/-- A three-slot heap: slot 0 (rooted) references slot 1; slot 2 is
unreachable garbage. -/
def c1heap : HeapState :=
  ⟨[⟨[("next", Value.objectReference 1)], false, 1⟩,
    ⟨[], false, 1⟩,
    ⟨[], false, 1⟩], [0, 1, 2]⟩

def c1result : HeapState :=
  (GarbageCollectedHeap.manage 5 c1heap [0]).getD ⟨[], []⟩

theorem collect_retains_exactly_reachable_witness :
    GarbageCollectedHeap.manage 5 c1heap [0] = some c1result
  ∧ (1 ∈ c1result.live ↔ ReachesFromRoots c1heap [0] 1)
  ∧ (2 ∈ c1result.live ↔ ReachesFromRoots c1heap [0] 2) := by
  have h := collect_retains_exactly_reachable 5 [0] c1heap c1result rfl
    (fun q => by
      match q with
      | 0 => rfl
      | 1 => rfl
      | 2 => rfl
      | (n+3) => rfl)
    (fun h hmem => by
      have hm : h ∈ [0, 1, 2] := hmem
      simp at hm
      rcases hm with rfl | rfl | rfl <;> decide)
  exact ⟨rfl, h.2.2 1 (by decide), h.2.2 2 (by decide)⟩

end Slang
